import Mathlib

set_option maxRecDepth 4000

/-- Strings of the scanned program are modelled as lists of Unicode code points,
matching Python string semantics (indexing and slicing by code point). -/
abbrev Str := List Char

/-- Code points for which Python `str.isspace()` holds. -/
def pySpaceCodes : List Nat :=
  [32, 9, 10, 11, 12, 13, 28, 29, 30, 31, 0x85, 0xa0, 0x1680,
    0x2000, 0x2001, 0x2002, 0x2003, 0x2004, 0x2005, 0x2006, 0x2007, 0x2008,
    0x2009, 0x200a, 0x2028, 0x2029, 0x202f, 0x205f, 0x3000]

/-- Whitespace test used by Python `str.split()`, `str.strip()` and by the `\s`
regex class (Unicode mode): the code points for which `str.isspace()` holds. -/
def isPySpace (c : Char) : Bool := c.toNat ∈ pySpaceCodes

/-- Python `s.strip()`: remove leading and trailing whitespace. -/
def pyStrip (s : Str) : Str :=
  ((s.dropWhile isPySpace).reverse.dropWhile isPySpace).reverse

/-- First token of Python `s.split()` (no separator: split on whitespace runs,
empties discarded).  `none` models the `IndexError` raised by `[0]` when the
string holds no non-whitespace character. -/
def pyFirstToken (s : Str) : Option Str :=
  let t := s.dropWhile isPySpace
  if t.isEmpty then none else some (t.takeWhile (fun c => !isPySpace c))

/-- Number of newline characters, as in Python `content.count(chr(10))`. -/
def countNl (s : Str) : Nat := s.count '\n'

/-- Python slice `s[a:b]` for non-negative bounds (clamping as Python does). -/
def pySliceNat (s : Str) (a b : Nat) : Str := (s.take b).drop a

/-- Convert a Python index that may be negative (only -1 occurs in this code
base, as the not-found sentinel of the brace matcher) to the non-negative
position Python uses for it: `len(s) + i` for negative `i`, clamped at 0. -/
def pyIdx (s : Str) (i : Int) : Nat :=
  if i < 0 then ((s.length : Int) + i).toNat else i.toNat

/-- Python slice `s[a:e]` where the end index may be the -1 sentinel. -/
def pySliceTo (s : Str) (a : Nat) (e : Int) : Str := pySliceNat s a (pyIdx s e)

/-- Line number (1-based) of the character position `pos` in `content`:
the source computes `content[:pos].count(chr(10)) + 1`. -/
def lineOf (content : Str) (pos : Nat) : Nat := countNl (content.take pos) + 1

/-- Last index of character `c` in `s`, or `none`; models Python `s.rfind(c)`
(which returns -1 when absent). -/
def lastIndexOf (s : Str) (c : Char) : Option Nat :=
  match s with
  | [] => none
  | a :: rest =>
    match lastIndexOf rest c with
    | some k => some (k + 1)
    | none => if a = c then some 0 else none

/-- Python `s.find(c, start)` (first index of `c` at or after `start`),
returned as an `Option` instead of the -1 sentinel. -/
def pyFindFrom (s : Str) (c : Char) (start : Nat) : Option Nat :=
  match (s.drop start).findIdx? (fun d => d = c) with
  | some k => some (start + k)
  | none => none

/-- Number of bytes of the UTF-8 encoding of one code point, as produced by
Python `str.encode(utf8)`. -/
def charUtf8Size (c : Char) : Nat :=
  if c.toNat < 0x80 then 1
  else if c.toNat < 0x800 then 2
  else if c.toNat < 0x10000 then 3
  else 4

/-- Length in bytes of the UTF-8 encoding of the string, the source expression
`len(content.encode(utf8))`. -/
def utf8ByteLen (s : Str) : Nat := (s.map charUtf8Size).sum

/-- Python `content.split(chr(10))`: split on newline, keeping empty parts;
always returns at least one (possibly empty) part. -/
def pySplitNl : Str → List Str
  | [] => [[]]
  | c :: rest =>
    if c = '\n' then [] :: pySplitNl rest
    else
      match pySplitNl rest with
      | [] => [[c]]
      | l :: ls => (c :: l) :: ls

/-- Line-break characters recognised by Python `str.splitlines()`. -/
def isPyLineBreak (c : Char) : Bool :=
  c.toNat ∈ [10, 13, 11, 12, 28, 29, 30, 0x85, 0x2028, 0x2029]

/-- Helper for `pySplitlines`, carrying the current (reversed) line. -/
def pySplitlinesAux : Str → Str → List Str
  | [], acc => if acc.isEmpty then [] else [acc.reverse]
  | '\r' :: '\n' :: rest, acc => acc.reverse :: pySplitlinesAux rest []
  | c :: rest, acc =>
    if isPyLineBreak c then acc.reverse :: pySplitlinesAux rest []
    else pySplitlinesAux rest (c :: acc)

/-- Python `content.splitlines()`. -/
def pySplitlines (s : Str) : List Str := pySplitlinesAux s []

/-- Python `sep.join(parts)`. -/
def joinSep (sep : Str) : List Str → Str
  | [] => []
  | [x] => x
  | x :: xs => x ++ sep ++ joinSep sep xs

/-- Scanning loop of `FunctionExtractor._find_closing_brace`: `pos` is the
absolute position of the head of the remaining text, `stack` the depth counter
(at least 1 while scanning, exactly as in the source, where the counter starts
at 1 and the function returns as soon as it reaches 0). -/
def findClosingBraceFrom : Str → Nat → Nat → Int
  | [], _, _ => -1
  | c :: rest, pos, stack =>
    if c = '{' then findClosingBraceFrom rest (pos + 1) (stack + 1)
    else if c = '}' then
      if stack = 1 then ((pos + 1 : Nat) : Int)
      else findClosingBraceFrom rest (pos + 1) (stack - 1)
    else findClosingBraceFrom rest (pos + 1) stack

/-- Source `FunctionExtractor._find_closing_brace(content, start_pos)`:
depth counter starts at 1 (the opening brace is already consumed); returns the
position one past the closing brace that brings the depth to 0, or -1. -/
def find_closing_brace (content : Str) (startPos : Nat) : Int :=
  findClosingBraceFrom (content.drop startPos) startPos 1

/-- Brace depth of a scanned prefix when the scan starts at depth `stack`. -/
def braceDepthAux (stack : Int) (s : Str) : Int :=
  stack + (s.count '{' : Int) - (s.count '}' : Int)

/-- Brace depth of a scanned prefix for a scan starting at depth 1, the
starting depth used by `find_closing_brace`. -/
def braceDepth (s : Str) : Int := braceDepthAux 1 s

/-- Successful application of a compiled regex at one position: the captured
groups (group text, or `none` for a non-participating optional group) and the
remaining suffix of the text after the match. -/
abbrev Matcher := Option Char → Str → Option (List (Option Str) × Str)

/-- One match produced by `re.finditer`: absolute start and end offsets plus
the captured groups. -/
structure RMatch where
  mstart : Nat
  mend : Nat
  groups : List (Option Str)
deriving Repr, DecidableEq

/-- Scanning loop of `re.finditer`: leftmost match wins, matches do not
overlap, and (like Python) an empty match advances the scan by one position.
`prev` is the character just before the current position, needed by word
boundaries.  The first argument is recursion fuel so that the definition is
structural (hence computable by the kernel); every recursive call strictly
shortens the scanned suffix, so fuel equal to the initial length is enough
and the fuel never runs out before the suffix does. -/
def finditerAux (m : Matcher) : Nat → Str → Nat → Option Char → List RMatch
  | 0, _, _, _ => []
  | _ + 1, [], _, _ => []
  | fuel + 1, c :: rest, pos, prev =>
    match m prev (c :: rest) with
    | some (gs, rem) =>
      if rem.length < (c :: rest).length then
        let consumed := (c :: rest).length - rem.length
        ⟨pos, pos + consumed, gs⟩ ::
          finditerAux m fuel rem (pos + consumed) ((c :: rest).take consumed).getLast?
      else
        ⟨pos, pos, gs⟩ :: finditerAux m fuel rest (pos + 1) (some c)
    | none => finditerAux m fuel rest (pos + 1) (some c)

/-- Model of `re.finditer(pattern, content)` for a compiled `Matcher`. -/
def pyFinditer (m : Matcher) (content : Str) : List RMatch :=
  finditerAux m content.length content 0 none

/-- Consume an exact literal. -/
def eatLit (lit : Str) (s : Str) : Option Str :=
  if lit.isPrefixOf s then some (s.drop lit.length) else none

/-- Consume a single given character. -/
def eatChar (c : Char) : Str → Option Str
  | a :: rest => if a = c then some rest else none
  | [] => none

/-- Consume the regex class `\s*` (greedy). -/
def eatWs (s : Str) : Str := s.dropWhile isPySpace

/-- Consume the regex class `\s+` (greedy, at least one). -/
def eatWs1 : Str → Option Str
  | a :: rest => if isPySpace a then some (rest.dropWhile isPySpace) else none
  | [] => none

/-- Greedy `p+`: one or more characters of a class, returning the consumed
run and the rest. -/
def eatClass1 (p : Char → Bool) : Str → Option (Str × Str)
  | a :: rest =>
    if p a then some (a :: rest.takeWhile p, rest.dropWhile p) else none
  | [] => none

/-- Character class `[a-zA-Z_$]` opening a JavaScript identifier. -/
def isJsIdStart (c : Char) : Bool := c.isAlpha || c = '_' || c = '$'

/-- Character class `[a-zA-Z0-9_$]` continuing a JavaScript identifier. -/
def isJsIdCont (c : Char) : Bool := c.isAlphanum || c = '_' || c = '$'

/-- Regex class `\w` (ASCII part; the scanned sources are ASCII). -/
def isWordChar (c : Char) : Bool := c.isAlphanum || c = '_'

/-- Regex fragment `[a-zA-Z_$][a-zA-Z0-9_$]*`, a JavaScript identifier. -/
def eatJsName : Str → Option (Str × Str)
  | a :: rest =>
    if isJsIdStart a then some (a :: rest.takeWhile isJsIdCont, rest.dropWhile isJsIdCont)
    else none
  | [] => none

/-- Regex fragment `\(([^)]*)\)`: parenthesised parameter text, captured.
The greedy `[^)]*` cannot cross a closing parenthesis, so it reaches exactly
the first one. -/
def eatParens : Str → Option (Str × Str)
  | a :: rest =>
    if a = '(' then
      match rest.dropWhile (fun c => c ≠ ')') with
      | ')' :: rem => some (rest.takeWhile (fun c => c ≠ ')'), rem)
      | _ => none
    else none
  | [] => none

def litFunction : Str := (r"function").data
def litAsync : Str := (r"async").data
def litConst : Str := (r"const").data
def litLet : Str := (r"let").data
def litVar : Str := (r"var").data
def litClass : Str := (r"class").data

/-- JS pattern 1, `function\s+([a-zA-Z_$][a-zA-Z0-9_$]*)\s*\(([^)]*)\)\s*` and
an opening brace. -/
def matchJsFunctionDecl : Matcher := fun _ s => do
  let s1 ← eatLit litFunction s
  let s2 ← eatWs1 s1
  let (name, s3) ← eatJsName s2
  let (ps, s4) ← eatParens (eatWs s3)
  let s5 ← eatChar '{' (eatWs s4)
  some ([some name, some ps], s5)

/-- Tail `\([^)]*\)\s*=>\s*` and an opening brace, shared by the arrow
pattern with and without its optional `async`. -/
def jsArrowTail (t : Str) : Option Str := do
  let (_, t1) ← eatParens t
  let t2 ← eatChar '=' (eatWs t1)
  let t3 ← eatChar '>' t2
  eatChar '{' (eatWs t3)

/-- JS pattern 2,
`(?:const|let|var)\s+([a-zA-Z_$][a-zA-Z0-9_$]*)\s*=\s*(?:async\s*)?` then
`\([^)]*\)\s*=>` and an opening brace.  One capture group (the name). -/
def matchJsArrow : Matcher := fun _ s => do
  let s1 ←
    match eatLit litConst s with
    | some r => some r
    | none => match eatLit litLet s with
      | some r => some r
      | none => eatLit litVar s
  let s2 ← eatWs1 s1
  let (name, s3) ← eatJsName s2
  let s4 ← eatChar '=' (eatWs s3)
  let s5 := eatWs s4
  let rest ←
    match eatLit litAsync s5 with
    | some r =>
      match jsArrowTail (eatWs r) with
      | some t => some t
      | none => jsArrowTail s5
    | none => jsArrowTail s5
  some ([some name], rest)

/-- Core of the method-shorthand pattern:
`([a-zA-Z_$][a-zA-Z0-9_$]*)\s*\(([^)]*)\)\s*` and an opening brace. -/
def jsMethodCore (t : Str) : Option (Str × Str × Str) := do
  let (name, t1) ← eatJsName t
  let (ps, t2) ← eatParens (eatWs t1)
  let t3 ← eatChar '{' (eatWs t2)
  some (name, ps, t3)

/-- JS pattern 3 (also the in-class method pattern),
`(?:async\s+)?([a-zA-Z_$][a-zA-Z0-9_$]*)\s*\(([^)]*)\)\s*` and a brace. -/
def matchJsMethod : Matcher := fun _ s =>
  let withAsync := do
    let s1 ← eatLit litAsync s
    let s2 ← eatWs1 s1
    jsMethodCore s2
  match withAsync with
  | some (n, p, rest) => some ([some n, some p], rest)
  | none =>
    match jsMethodCore s with
    | some (n, p, rest) => some ([some n, some p], rest)
    | none => none

/-- JS pattern 4, `class\s+([a-zA-Z_$][a-zA-Z0-9_$]*)\s*` and a brace. -/
def matchJsClass : Matcher := fun _ s => do
  let s1 ← eatLit litClass s
  let s2 ← eatWs1 s1
  let (name, s3) ← eatJsName s2
  let s4 ← eatChar '{' (eatWs s3)
  some ([some name], s4)

/-- Record layout shared by every regex handler that takes the span from a
match start to an end offset that may be the -1 sentinel (source lines such as
`start_line = content[:start_pos].count(...) + 1`). -/
structure FunctionRecord where
  name : Str
  signature : Str
  description : Str
  start_line : Nat
  end_line : Nat
  code : Str
deriving Repr, DecidableEq

/-- Build the record emitted for a span from `startPos` to the Python index
`endI` (possibly the -1 sentinel), with empty description. -/
def mkSpanRecord (content : Str) (name sig : Str) (startPos : Nat) (endI : Int) :
    FunctionRecord :=
  let endN := pyIdx content endI
  ⟨name, sig, [], lineOf content startPos, countNl (content.take endN) + 1,
    pySliceNat content startPos endN⟩

/-- Group 1 of a match (the name); participating groups only in this code. -/
def matchG1 (m : RMatch) : Str := ((m.groups.headD none).getD [])

/-- Source expression `match.group(2) if len(match.groups()) > 1 else ""`. -/
def matchG2orEmpty (m : RMatch) : Str := ((m.groups[1]?).getD none).getD []

/-- Non-class branch of `_extract_js_ts_functions` for one pattern. -/
def jsPatternRecords (content : Str) (mt : Matcher) : List FunctionRecord :=
  (pyFinditer mt content).map (fun m =>
    let name := matchG1 m
    let params := matchG2orEmpty m
    mkSpanRecord content name (name ++ ['('] ++ params ++ [')']) m.mstart
      (find_closing_brace content m.mend))

/-- Class branch of `_extract_js_ts_functions`: scan the class body (bounded
by the brace matcher) with the method pattern and qualify names. -/
def jsClassRecords (content : Str) (m : RMatch) : List FunctionRecord :=
  let className := matchG1 m
  let classEnd := find_closing_brace content m.mend
  let classBody := pySliceTo content m.mend classEnd
  (pyFinditer matchJsMethod classBody).map (fun mm =>
    let methodName := matchG1 mm
    let methodParams := matchG2orEmpty mm
    let methodStartPos := m.mend + mm.mstart
    let methodEnd := find_closing_brace content (methodStartPos + (mm.mend - mm.mstart))
    mkSpanRecord content (className ++ ['.'] ++ methodName)
      (methodName ++ ['('] ++ methodParams ++ [')']) methodStartPos methodEnd)

/-- Source `FunctionExtractor._extract_js_ts_functions`: the four patterns are
applied in order; the fourth (class) pattern routes through the class branch. -/
def extract_js_ts_functions (content : Str) : List FunctionRecord :=
  jsPatternRecords content matchJsFunctionDecl ++
  jsPatternRecords content matchJsArrow ++
  jsPatternRecords content matchJsMethod ++
  ((pyFinditer matchJsClass content).map (jsClassRecords content)).flatten

def litDef : Str := (r"def").data
def litEnd : Str := (r"end").data
def litPub : Str := (r"pub").data
def litFn : Str := (r"fn").data
def litFunc : Str := (r"func").data
def litPublic : Str := (r"public").data
def litPrivate : Str := (r"private").data
def litProtected : Str := (r"protected").data
def litStatic : Str := (r"static").data
def litThrowsSp : Str := (r"throws ").data
def litOverride : Str := (r"override").data
def litFinal : Str := (r"final").data
def litDefaultKw : Str := (r"default").data
def litDelete : Str := (r"delete").data
def litNoexcept : Str := (r"noexcept").data
def litArrow : Str := (r"->").data

/-- First successful application of `f` along a list (regex alternation and
backtracking order). -/
def firstSome {α β : Type} (f : α → Option β) : List α → Option β
  | [] => none
  | a :: rest =>
    match f a with
    | some b => some b
    | none => firstSome f rest

lemma dropWhile_length_le (p : Char → Bool) (l : Str) :
    (l.dropWhile p).length ≤ l.length := by
  induction l with
  | nil => simp
  | cons a t ih =>
    by_cases hpa : p a
    · simp only [List.dropWhile_cons, hpa, if_true]
      exact Nat.le_trans ih (Nat.le_succ _)
    · simp [List.dropWhile_cons, hpa]

lemma eatClass1_some_length {p : Char → Bool} {s run r : Str}
    (h : eatClass1 p s = some (run, r)) : r.length < s.length := by
  cases s with
  | nil => simp [eatClass1] at h
  | cons a t =>
    simp only [eatClass1] at h
    by_cases hpa : p a
    · simp only [hpa, if_true] at h
      obtain ⟨h1, h2⟩ := Prod.mk.injEq .. ▸ (Option.some.injEq .. ▸ h)
      subst h2
      simpa using Nat.lt_succ_of_le (dropWhile_length_le _ t)
    · simp [hpa] at h

lemma eatWs1_some_length {s r : Str} (h : eatWs1 s = some r) :
    r.length < s.length := by
  cases s with
  | nil => simp [eatWs1] at h
  | cons a t =>
    simp only [eatWs1] at h
    by_cases hpa : isPySpace a
    · simp only [hpa, if_true, Option.some.injEq] at h
      subst h
      simpa using Nat.lt_succ_of_le (dropWhile_length_le _ t)
    · simp [hpa] at h

/-- Suffixes reached after consuming 1, 2, 3, ... repetitions of the regex
fragment `(?:RUN\s+)` where RUN is one-or-more characters of class `p`
(the `(?:[\w...]+\s+)+` type prefix of the C/C++, Java and generic method
patterns).  Backtracking over the repetition count tries these from last to
first.  The first argument is recursion fuel; every step strictly shortens
the suffix, so fuel equal to the initial length is enough. -/
def typePairsSuffixes (p : Char → Bool) : Nat → Str → List Str
  | 0, _ => []
  | fuel + 1, s =>
    match eatClass1 p s with
    | none => []
    | some (_, r1) =>
      match eatWs1 r1 with
      | none => []
      | some r2 => r2 :: typePairsSuffixes p fuel r2

/-- The Java and Ruby class pattern `class\s+(\w+)`. -/
def matchClassName : Matcher := fun _ s => do
  let s1 ← eatLit litClass s
  let s2 ← eatWs1 s1
  let (name, s3) ← eatClass1 isWordChar s2
  some ([some name], s3)

/-- The Ruby method pattern `def\s+(\w+)(?:\(([^)]*)\))?`; the second group
does not participate when no well-formed parameter list follows directly. -/
def matchRubyDef : Matcher := fun _ s => do
  let s1 ← eatLit litDef s
  let s2 ← eatWs1 s1
  let (name, s3) ← eatClass1 isWordChar s2
  match eatParens s3 with
  | some (ps, rest) => some ([some name, some ps], rest)
  | none => some ([some name, none], s3)

/-- The Ruby terminator pattern `\bend\b` (word boundaries on both sides;
the left one needs the character before the match position). -/
def matchRubyEnd : Matcher := fun prev s =>
  let prevIsWord := match prev with
    | some p => isWordChar p
    | none => false
  if prevIsWord then none
  else
    match eatLit litEnd s with
    | some s1 =>
      match s1 with
      | c :: _ => if isWordChar c then none else some ([], s1)
      | [] => some ([], s1)
    | none => none

/-- The Rust pattern
`(?:pub\s+)?fn\s+(\w+)\s*(?:<[^>]*>)?\s*\(([^)]*)\)(?:\s*->\s*[^{]*)?`.
Note that the match does not include the opening brace; the handler looks the
brace up separately. -/
def matchRustFn : Matcher := fun _ s => do
  let s1 :=
    match (do
      let r ← eatLit litPub s
      eatWs1 r) with
    | some r => r
    | none => s
  let s2 ← eatLit litFn s1
  let s3 ← eatWs1 s2
  let (name, s4) ← eatClass1 isWordChar s3
  let s5 := eatWs s4
  let s6 :=
    match (do
      let u ← eatChar '<' s5
      eatChar '>' (u.dropWhile (fun c => c ≠ '>'))) with
    | some r => r
    | none => s5
  let (ps, s7) ← eatParens (eatWs s6)
  let s8 :=
    match (do
      let u ← eatLit litArrow (eatWs s7)
      some ((eatWs u).dropWhile (fun c => c ≠ '{'))) with
    | some r => r
    | none => s7
  some ([some name, some ps], s8)

/-- The Go pattern `func\s+(\w+)\s*\(([^)]*)\)\s*(?:\([^)]*\))?\s*` and an
opening brace (the optional second parenthesis group is the return list). -/
def matchGoFunc : Matcher := fun _ s => do
  let s1 ← eatLit litFunc s
  let s2 ← eatWs1 s1
  let (name, s3) ← eatClass1 isWordChar s2
  let (ps, s4) ← eatParens (eatWs s3)
  let s5 := eatWs s4
  let rest ←
    match (do
      let (_, u) ← eatParens s5
      eatChar '{' (eatWs u)) with
    | some r => some r
    | none => eatChar '{' s5
  some ([some name, some ps], rest)

/-- Character class `[\w\<\>\[\]]` of the Java type prefix. -/
def isJavaTypeChar (c : Char) : Bool :=
  isWordChar c || c = '<' || c = '>' || c = '[' || c = ']'

/-- Character class `[\w:]` of the C/C++ type prefix. -/
def isCppTypeChar (c : Char) : Bool := isWordChar c || c = ':'

/-- Consume literal spaces, the regex fragment " *". -/
def eatSpaces (s : Str) : Str := s.dropWhile (fun c => c = ' ')

/-- Consume at least one literal space, the regex fragment " +". -/
def eatSpaces1 : Str → Option Str
  | c :: rest => if c = ' ' then some (eatSpaces rest) else none
  | [] => none

/-- Completion of the Java method pattern after the type-prefix repetition:
`(\w+) *\([^\)]*\) *(?:throws [^{]+)? *` and an opening brace. -/
def javaCompletion (t : Str) : Option (Str × Str) := do
  let (name, t1) ← eatClass1 isWordChar t
  let t2 ← eatChar '(' (eatSpaces t1)
  let t3 ← eatChar ')' (t2.dropWhile (fun c => c ≠ ')'))
  let t4 := eatSpaces t3
  let withThrows : Option Str := do
    let u ← eatLit litThrowsSp t4
    let (_, u1) ← eatClass1 (fun c => c ≠ '{') u
    eatChar '{' (eatSpaces u1)
  match withThrows with
  | some rest => some (name, rest)
  | none => do
    let t5 ← eatChar '{' (eatSpaces t4)
    some (name, t5)

/-- The Java method pattern
`(?:public|private|protected|static|\s) +(?:[\w\<\>\[\]]+\s+)+(\w+) *` then
`\([^\)]*\) *(?:throws [^{]+)? *` and an opening brace.  One capture group. -/
def matchJavaMethod : Matcher := fun _ s => do
  let s1 ←
    match eatLit litPublic s with
    | some r => some r
    | none => match eatLit litPrivate s with
      | some r => some r
      | none => match eatLit litProtected s with
        | some r => some r
        | none => match eatLit litStatic s with
          | some r => some r
          | none =>
            match s with
            | c :: rest => if isPySpace c then some rest else none
            | [] => none
  let s2 ← eatSpaces1 s1
  let (name, rest) ← firstSome javaCompletion (typePairsSuffixes isJavaTypeChar s2.length s2).reverse
  some ([some name], rest)

/-- Scan of the inline balanced-brace sub-pattern of the C/C++ regex,
`(?:[^{}]|{(?:[^{}]|{[^{}]*})*})*}` after the opening brace: a depth counter
capped at 3; a fourth-level opening brace kills the match (each scan position
admits at most one regex alternative, so the regex engine has no backtracking
choices and this deterministic scan is exact). -/
def cppBodyScan : Str → Nat → Option Str
  | [], _ => none
  | c :: rest, depth =>
    if c = '}' then
      if depth = 1 then some rest else cppBodyScan rest (depth - 1)
    else if c = '{' then
      if 3 ≤ depth then none else cppBodyScan rest (depth + 1)
    else cppBodyScan rest depth

/-- The brace-delimited body sub-pattern of the C/C++ regex (nesting
tolerated to depth 3 only). -/
def eatCppBody : Str → Option Str
  | '{' :: rest => cppBodyScan rest 1
  | _ => none

/-- Qualifier tail of the C/C++ pattern after the parameter list:
`\s*(?:const)?\s*(?:override)?\s*(?:final)?\s*(?:=\s*(?:default|delete|0))?`
then `\s*(?:noexcept)?\s*` and the brace-delimited body. -/
def cppQualTail (t : Str) : Option Str :=
  let t1 := eatWs t
  let t2 := match eatLit litConst t1 with | some r => r | none => t1
  let t3 := eatWs t2
  let t4 := match eatLit litOverride t3 with | some r => r | none => t3
  let t5 := eatWs t4
  let t6 := match eatLit litFinal t5 with | some r => r | none => t5
  let t7 := eatWs t6
  let t8 := match (do
      let u ← eatChar '=' t7
      let u1 := eatWs u
      match eatLit litDefaultKw u1 with
      | some r => some r
      | none => match eatLit litDelete u1 with
        | some r => some r
        | none => eatChar '0' u1) with
    | some r => r
    | none => t7
  let t9 := eatWs t8
  let t10 := match eatLit litNoexcept t9 with | some r => r | none => t9
  eatCppBody (eatWs t10)

/-- The C/C++ pattern `(?:[\w:]+\s+)+(\w+)\s*\(([^)]*)\)` followed by the
qualifier tail and the brace-delimited body.  Two capture groups. -/
def matchCCpp : Matcher := fun _ s => do
  let (ng, rest) ← firstSome (fun t => do
      let (name, t1) ← eatClass1 isWordChar t
      let (ps, t2) ← eatParens (eatWs t1)
      let rest ← cppQualTail t2
      some ((name, ps), rest)) (typePairsSuffixes isCppTypeChar s.length s).reverse
  some ([some ng.1, some ng.2], rest)

/-- Generic pattern 1, `(?:function|func|def|fn)\s+(\w+)\s*\(([^)]*)\)`. -/
def matchGen1 : Matcher := fun _ s =>
  firstSome (fun lit => do
    let s1 ← eatLit lit s
    let s2 ← eatWs1 s1
    let (name, s3) ← eatClass1 isWordChar s2
    let (ps, s4) ← eatParens (eatWs s3)
    some ([some name, some ps], s4)) [litFunction, litFunc, litDef, litFn]

/-- Completion of generic pattern 2 after the modifier and type prefix:
`(\w+)\s*\(([^)]*)\)\s*` and an opening brace. -/
def gen2Completion (t : Str) : Option (List (Option Str) × Str) := do
  let (name, t1) ← eatClass1 isWordChar t
  let (ps, t2) ← eatParens (eatWs t1)
  let t3 ← eatChar '{' (eatWs t2)
  some ([some name, some ps], t3)

/-- Generic pattern 2,
`(?:public|private|protected|static)?\s+(?:\w+\s+)*(\w+)\s*\(([^)]*)\)\s*`
and an opening brace (the type repetition may be empty here). -/
def matchGen2 : Matcher := fun _ s =>
  let core := fun (u : Str) => do
    let u1 ← eatWs1 u
    firstSome gen2Completion (u1 :: typePairsSuffixes isWordChar u1.length u1).reverse
  match firstSome (fun lit => do
      let r ← eatLit lit s
      core r) [litPublic, litPrivate, litProtected, litStatic] with
  | some res => some res
  | none => core s

/-- Tail `\([^)]*\)\s*=>` of generic pattern 3. -/
def gen3Tail (t : Str) : Option Str := do
  let (_, t1) ← eatParens t
  let t2 ← eatChar '=' (eatWs t1)
  eatChar '>' t2

/-- Generic pattern 3,
`(?:const|let|var)\s+(\w+)\s*=\s*(?:async\s*)?\([^)]*\)\s*=>`. -/
def matchGen3 : Matcher := fun _ s => do
  let s1 ←
    match eatLit litConst s with
    | some r => some r
    | none => match eatLit litLet s with
      | some r => some r
      | none => eatLit litVar s
  let s2 ← eatWs1 s1
  let (name, s3) ← eatClass1 isWordChar s2
  let s4 ← eatChar '=' (eatWs s3)
  let s5 := eatWs s4
  let rest ←
    match eatLit litAsync s5 with
    | some r =>
      match gen3Tail (eatWs r) with
      | some t => some t
      | none => gen3Tail s5
    | none => gen3Tail s5
  some ([some name], rest)

/-- Source `FunctionExtractor._extract_ruby_functions`: the enclosing class is
the last `class NAME` match; the method body runs to the first `\bend\b`
after the definition, or to the end of the file when there is none. -/
def extract_ruby_functions (content : Str) : List FunctionRecord :=
  let currentClass := ((pyFinditer matchClassName content).getLast?).map matchG1
  (pyFinditer matchRubyDef content).map (fun m =>
    let methodName := matchG1 m
    let params := matchG2orEmpty m
    let endPos :=
      match (pyFinditer matchRubyEnd (content.drop m.mend)).head? with
      | some em => m.mend + em.mend
      | none => content.length
    let fullName :=
      match currentClass with
      | some c => c ++ ['.'] ++ methodName
      | none => methodName
    mkSpanRecord content fullName (methodName ++ ['('] ++ params ++ [')'])
      m.mstart ((endPos : Nat) : Int))

/-- Source `FunctionExtractor._extract_rust_functions`: candidates with no
opening brace after the signature, or with no matching closing brace, are
skipped. -/
def extract_rust_functions (content : Str) : List FunctionRecord :=
  (pyFinditer matchRustFn content).filterMap (fun m =>
    match pyFindFrom content '{' m.mend with
    | none => none
    | some openBracePos =>
      let endI := find_closing_brace content (openBracePos + 1)
      if endI = -1 then none
      else some (mkSpanRecord content (matchG1 m)
        (matchG1 m ++ ['('] ++ matchG2orEmpty m ++ [')']) m.mstart endI))

/-- Source `FunctionExtractor._extract_go_functions`. -/
def extract_go_functions (content : Str) : List FunctionRecord :=
  (pyFinditer matchGoFunc content).map (fun m =>
    mkSpanRecord content (matchG1 m)
      (matchG1 m ++ ['('] ++ matchG2orEmpty m ++ [')']) m.mstart
      (find_closing_brace content m.mend))

/-- Source expression `re.search(lazy parenthesis pattern, span)` used by the
Java handler to pull the parameter text out of the matched signature: first
opening parenthesis that is closed on the same line, lazily captured. -/
def pySearchLazyParens : Str → Option Str
  | [] => none
  | '(' :: rest =>
    match rest.dropWhile (fun c => c ≠ ')' ∧ c ≠ '\n') with
    | ')' :: _ => some (rest.takeWhile (fun c => c ≠ ')' ∧ c ≠ '\n'))
    | _ => pySearchLazyParens rest
  | _ :: rest => pySearchLazyParens rest

/-- Source `FunctionExtractor._extract_java_functions`. -/
def extract_java_functions (content : Str) : List FunctionRecord :=
  let currentClass := ((pyFinditer matchClassName content).getLast?).map matchG1
  (pyFinditer matchJavaMethod content).map (fun m =>
    let methodName := matchG1 m
    let params := (pySearchLazyParens (pySliceNat content m.mstart m.mend)).getD []
    let fullName :=
      match currentClass with
      | some c => c ++ ['.'] ++ methodName
      | none => methodName
    mkSpanRecord content fullName (methodName ++ ['('] ++ params ++ [')']) m.mstart
      (find_closing_brace content m.mend))

/-- Source `FunctionExtractor._extract_c_cpp_functions`: the whole span is the
match itself. -/
def extract_c_cpp_functions (content : Str) : List FunctionRecord :=
  (pyFinditer matchCCpp content).map (fun m =>
    mkSpanRecord content (matchG1 m)
      (matchG1 m ++ ['('] ++ matchG2orEmpty m ++ [')']) m.mstart ((m.mend : Nat) : Int))

/-- One pattern of `FunctionExtractor._extract_generic_functions`: when the
match does not already end at an opening brace, look one up after the match;
candidates with no brace or no matching closing brace are skipped. -/
def genericRecords (content : Str) (mt : Matcher) : List FunctionRecord :=
  (pyFinditer mt content).filterMap (fun m =>
    let endI :=
      if (content.drop (m.mend - 1)).head? ≠ some '{' then
        match pyFindFrom content '{' m.mend with
        | none => none
        | some ob => some (find_closing_brace content (ob + 1))
      else some (find_closing_brace content m.mend)
    match endI with
    | none => none
    | some e =>
      if e = -1 then none
      else some (mkSpanRecord content (matchG1 m)
        (matchG1 m ++ ['('] ++ matchG2orEmpty m ++ [')']) m.mstart e))

/-- Source `FunctionExtractor._extract_generic_functions`, the fallback for
unsupported languages: three broad patterns in order. -/
def extract_generic_functions (content : Str) : List FunctionRecord :=
  genericRecords content matchGen1 ++
  genericRecords content matchGen2 ++
  genericRecords content matchGen3

/-- Node of the CPython abstract syntax tree as consumed by
`FunctionExtractor._extract_python_functions`: `def` nodes (with the argument
names of `node.args.args`, the optional `**kwargs` name, the docstring that
`ast.get_docstring` reports, and the 1-based `lineno`/`end_lineno` the CPython
parser attaches), `class` nodes, and every other node kind collapsed to its
child list.  `ast.parse` itself is foreign standard-library code; its result
is passed to the extractor as a parameter. -/
inductive PyNode where
  | functionDef (name : Str) (argNames : List Str) (kwarg : Option Str)
      (docstring : Option Str) (lineno : Nat) (endLineno : Nat) (body : List PyNode)
  | classDef (name : Str) (lineno : Nat) (endLineno : Nat) (body : List PyNode)
  | other (children : List PyNode)
deriving Repr

/-- Child nodes, as traversed by `ast.iter_child_nodes`. -/
def nodeChildren : PyNode → List PyNode
  | .functionDef _ _ _ _ _ _ body => body
  | .classDef _ _ _ body => body
  | .other children => children

lemma sizeOf_nodeChildren_lt (n : PyNode) : sizeOf (nodeChildren n) < sizeOf n := by
  cases n with
  | functionDef name args kw doc l e body => simp [nodeChildren]
  | classDef name l e body => simp [nodeChildren]
  | other children => simp [nodeChildren]

lemma sum_map_sizeOf_lt (l : List PyNode) : (l.map sizeOf).sum < sizeOf l := by
  induction l with
  | nil => simp
  | cons a t ih => simp only [List.map_cons, List.sum_cons, List.cons.sizeOf_spec]; omega

/-- Breadth-first traversal of `ast.walk`: pop the queue head, yield it, and
append its children to the queue. -/
def pyWalk (queue : List PyNode) : List PyNode :=
  match queue with
  | [] => []
  | n :: rest => n :: pyWalk (rest ++ nodeChildren n)
termination_by (queue.map sizeOf).sum
decreasing_by
  simp only [List.map_append, List.sum_append, List.map_cons, List.sum_cons]
  have h1 := sizeOf_nodeChildren_lt n
  have h2 := sum_map_sizeOf_lt (nodeChildren n)
  omega

/-- Source helper `get_node_code`: join the `splitlines` slice from
`lineno - 1` to `end_lineno` with newlines. -/
def get_node_code (content : Str) (lineno endLineno : Nat) : Str :=
  joinSep ['\n'] (((pySplitlines content).take endLineno).drop (lineno - 1))

/-- Signature string `def name(a, b, **kw)` built by the Python handler. -/
def pySignature (name : Str) (argNames : List Str) (kwarg : Option Str) : Str :=
  let args := argNames ++ (match kwarg with
    | some k => [(r"**").data ++ k]
    | none => [])
  litDef ++ [' '] ++ name ++ ['('] ++ joinSep ((r", ").data) args ++ [')']

/-- Record emitted for one Python `def` node, optionally class-qualified. -/
def pyFnRecord (content : Str) (qual : Option Str) (name : Str) (argNames : List Str)
    (kwarg : Option Str) (docstring : Option Str) (lineno endLineno : Nat) :
    FunctionRecord :=
  ⟨(match qual with
    | some q => q ++ ['.'] ++ name
    | none => name),
    pySignature name argNames kwarg, docstring.getD [], lineno, endLineno,
    get_node_code content lineno endLineno⟩

/-- Records contributed by one walked node: a bare record for every
function-definition node, and a qualified record for every function definition
found directly in a class body. -/
def pyNodeRecords (content : Str) (n : PyNode) : List FunctionRecord :=
  match n with
  | .functionDef name args kw doc l e _ => [pyFnRecord content none name args kw doc l e]
  | .classDef cname _ _ body =>
    body.filterMap (fun child =>
      match child with
      | .functionDef name args kw doc l e _ =>
        some (pyFnRecord content (some cname) name args kw doc l e)
      | _ => none)
  | .other _ => []

/-- Body of `FunctionExtractor._extract_python_functions` after a successful
parse: walk the tree breadth-first and collect the records. -/
def pyExtractFromTree (content : Str) (tree : PyNode) : List FunctionRecord :=
  ((pyWalk [tree]).map (pyNodeRecords content)).flatten

/-- Source `FunctionExtractor._extract_python_functions`: `parsed` is the
outcome of `ast.parse content` (`none` models a `SyntaxError`, on which the
handler falls back to the generic handler). -/
def extract_python_functions (content : Str) (parsed : Option PyNode) :
    List FunctionRecord :=
  match parsed with
  | some tree => pyExtractFromTree content tree
  | none => extract_generic_functions content

/-- Source expression `language.lower().split()[0].split(chr(40))[0]` of
`extract_functions`; `none` models the `IndexError` raised by the first `[0]`
when the lower-cased label has no whitespace-delimited token, which happens
exactly when the label is empty or all whitespace.  This line runs before the
protective `try` block of the source. -/
def normalize_language (language : Str) : Option Str :=
  (pyFirstToken (language.map Char.toLower)).map (fun tok =>
    tok.takeWhile (fun c => c ≠ '('))

/-- Handler dispatch of `extract_functions` on the normalized language key. -/
def dispatch_extract (content : Str) (nl : Str) (parsed : Option PyNode) :
    List FunctionRecord :=
  if nl = (r"python").data then extract_python_functions content parsed
  else if nl = (r"javascript").data ∨ nl = (r"typescript").data then
    extract_js_ts_functions content
  else if nl = (r"c").data ∨ nl = (r"c++").data ∨ nl = (r"cpp").data then
    extract_c_cpp_functions content
  else if nl = (r"java").data then extract_java_functions content
  else if nl = (r"ruby").data ∨ nl = (r"rb").data then extract_ruby_functions content
  else if nl = (r"go").data then extract_go_functions content
  else if nl = (r"rust").data then extract_rust_functions content
  else extract_generic_functions content

/-- Source `FunctionExtractor.extract_functions(file_content, language,
file_path)`.  The `Except` layer records the one exception that can escape:
the `IndexError` of the normalization line, which sits above the `try` block.
Inside the `try`, every modelled handler is total, so the catch-all branch
returning the empty list has nothing to catch in the model. -/
def extract_functions (fileContent : Str) (language : Str) (_filePath : Str)
    (parsed : Option PyNode) : Except Str (List FunctionRecord) :=
  match normalize_language language with
  | none => .error ((r"IndexError: list index out of range").data)
  | some nl => .ok (dispatch_extract fileContent nl parsed)
/-- The static extension table `LanguageDetector.EXTENSION_MAP` (all 77 entries). -/
def EXTENSION_MAP : List (Str × Str) := [
  ((r".html").data, (r"HTML").data),
  ((r".htm").data, (r"HTML").data),
  ((r".xhtml").data, (r"HTML").data),
  ((r".css").data, (r"CSS").data),
  ((r".scss").data, (r"SCSS").data),
  ((r".sass").data, (r"Sass").data),
  ((r".less").data, (r"Less").data),
  ((r".js").data, (r"JavaScript").data),
  ((r".jsx").data, (r"JavaScript (React)").data),
  ((r".ts").data, (r"TypeScript").data),
  ((r".tsx").data, (r"TypeScript (React)").data),
  ((r".vue").data, (r"Vue.js").data),
  ((r".svelte").data, (r"Svelte").data),
  ((r".py").data, (r"Python").data),
  ((r".pyx").data, (r"Cython").data),
  ((r".ipynb").data, (r"Jupyter Notebook").data),
  ((r".java").data, (r"Java").data),
  ((r".class").data, (r"Java bytecode").data),
  ((r".kt").data, (r"Kotlin").data),
  ((r".kts").data, (r"Kotlin Script").data),
  ((r".scala").data, (r"Scala").data),
  ((r".groovy").data, (r"Groovy").data),
  ((r".clj").data, (r"Clojure").data),
  ((r".c").data, (r"C").data),
  ((r".h").data, (r"C header").data),
  ((r".cpp").data, (r"C++").data),
  ((r".cc").data, (r"C++").data),
  ((r".cxx").data, (r"C++").data),
  ((r".hpp").data, (r"C++ header").data),
  ((r".hxx").data, (r"C++ header").data),
  ((r".cs").data, (r"C#").data),
  ((r".vb").data, (r"Visual Basic").data),
  ((r".go").data, (r"Go").data),
  ((r".rs").data, (r"Rust").data),
  ((r".swift").data, (r"Swift").data),
  ((r".d").data, (r"D").data),
  ((r".rb").data, (r"Ruby").data),
  ((r".rbw").data, (r"Ruby").data),
  ((r".php").data, (r"PHP").data),
  ((r".pl").data, (r"Perl").data),
  ((r".pm").data, (r"Perl module").data),
  ((r".t").data, (r"Perl test").data),
  ((r".sh").data, (r"Shell script").data),
  ((r".bash").data, (r"Bash script").data),
  ((r".zsh").data, (r"Zsh script").data),
  ((r".ps1").data, (r"PowerShell").data),
  ((r".lua").data, (r"Lua").data),
  ((r".hs").data, (r"Haskell").data),
  ((r".lhs").data, (r"Literate Haskell").data),
  ((r".ml").data, (r"OCaml").data),
  ((r".mli").data, (r"OCaml interface").data),
  ((r".fs").data, (r"F#").data),
  ((r".fsi").data, (r"F# interface").data),
  ((r".fsx").data, (r"F# script").data),
  ((r".elm").data, (r"Elm").data),
  ((r".erl").data, (r"Erlang").data),
  ((r".ex").data, (r"Elixir").data),
  ((r".exs").data, (r"Elixir script").data),
  ((r".json").data, (r"JSON").data),
  ((r".yaml").data, (r"YAML").data),
  ((r".yml").data, (r"YAML").data),
  ((r".xml").data, (r"XML").data),
  ((r".toml").data, (r"TOML").data),
  ((r".ini").data, (r"INI").data),
  ((r".csv").data, (r"CSV").data),
  ((r".tsv").data, (r"TSV").data),
  ((r".sql").data, (r"SQL").data),
  ((r".md").data, (r"Markdown").data),
  ((r".rst").data, (r"reStructuredText").data),
  ((r".tex").data, (r"LaTeX").data),
  ((r".r").data, (r"R").data),
  ((r".dart").data, (r"Dart").data),
  ((r".jl").data, (r"Julia").data),
  ((r".nim").data, (r"Nim").data),
  ((r".zig").data, (r"Zig").data),
  ((r".v").data, (r"V").data),
  ((r".crystal").data, (r"Crystal").data)
]

/-- Looking a key up in the extension dictionary. -/
def extLookup (ext : Str) : Option Str :=
  (EXTENSION_MAP.find? (fun kv => kv.1 = ext)).map (fun kv => kv.2)

/-- One content-signature regex of `LanguageDetector.PATTERN_MAP`.  Every
entry has the shape `^\s*PRE` or `^\s*PRE\s+POST` (searched with
`re.MULTILINE`), so it is represented by the literal `pre` and the optional
second literal behind mandatory whitespace. -/
structure SigPattern where
  pre : Str
  wsThen : Option Str
deriving Repr, DecidableEq

/-- Ordered content-signature list `LanguageDetector.PATTERN_MAP`. -/
def PATTERN_MAP : List (SigPattern × Str) := [
  (⟨(r"<?php").data, none⟩, (r"PHP").data),
  (⟨(r"<?=").data, none⟩, (r"PHP").data),
  (⟨(r"#!/usr/bin/env").data, some ((r"python").data)⟩, (r"Python").data),
  (⟨(r"#!/usr/bin/python").data, none⟩, (r"Python").data),
  (⟨(r"#!/bin/bash").data, none⟩, (r"Bash script").data),
  (⟨(r"#!/bin/sh").data, none⟩, (r"Shell script").data),
  (⟨(r"#!/usr/bin/env").data, some ((r"node").data)⟩, (r"JavaScript").data),
  (⟨(r"#!/usr/bin/env").data, some ((r"ruby").data)⟩, (r"Ruby").data),
  (⟨(r"#!/usr/bin/ruby").data, none⟩, (r"Ruby").data),
  (⟨(r"#!/usr/bin/env").data, some ((r"perl").data)⟩, (r"Perl").data),
  (⟨(r"#!/usr/bin/perl").data, none⟩, (r"Perl").data),
  (⟨(r"import").data, some ((r"React").data)⟩, (r"JavaScript (React)").data),
  (⟨(r"package").data, some ((r"main").data)⟩, (r"Go").data),
  (⟨(r"using").data, some ((r"System;").data)⟩, (r"C#").data)]

/-- Suffixes of the content that start just after a newline (the positions
`^` can match under `re.MULTILINE`, besides the start of the string). -/
def lineStartsAux : Str → List Str
  | [] => []
  | c :: rest =>
    if c = '\n' then rest :: lineStartsAux rest else lineStartsAux rest

/-- All suffixes at start-of-line positions. -/
def lineStarts (c : Str) : List Str := c :: lineStartsAux c

/-- Match of one signature at one start-of-line position: `\s*` may cross
line breaks (it is an ordinary whitespace class), then the literal, then for
two-literal signatures at least one whitespace and the second literal. -/
def sigMatchesAt (p : SigPattern) (s : Str) : Bool :=
  let s1 := s.dropWhile isPySpace
  if p.pre.isPrefixOf s1 then
    match p.wsThen with
    | none => true
    | some post =>
      match s1.drop p.pre.length with
      | c :: rest => isPySpace c && post.isPrefixOf (rest.dropWhile isPySpace)
      | [] => false
  else false

/-- Model of `re.search(pattern, content, re.MULTILINE)` for one signature. -/
def sigSearch (p : SigPattern) (content : Str) : Bool :=
  (lineStarts content).any (sigMatchesAt p)

/-- The pattern loop of `detect_language`: first signature in table order
that matches anywhere wins. -/
def patternMapMatch (content : Str) : Option Str :=
  (PATTERN_MAP.find? (fun pl => sigSearch pl.1 content)).map (fun pl => pl.2)

/-- Extension part of `os.path.splitext` (POSIX rules): the extension starts
at the last dot after the last slash, provided the base name has a character
other than a dot before that dot (so dotfiles have no extension). -/
def splitext_ext (p : Str) : Str :=
  match lastIndexOf p '.' with
  | none => []
  | some di =>
    let si : Nat :=
      match lastIndexOf p '/' with
      | none => 0
      | some k => k + 1
    if si ≤ di ∧ (pySliceNat p si di).any (fun c => c ≠ '.') then p.drop di else []

/-- Python `os.path.basename` for POSIX paths. -/
def pyBasename (p : Str) : Str :=
  match lastIndexOf p '/' with
  | some k => p.drop (k + 1)
  | none => p

/-- The trailing filename-heuristics chain of `detect_language`, as an
optional result (the source returns the sentinel string directly). -/
def filename_heuristics (filename : Str) : Option Str :=
  if filename = (r"makefile").data ∨ (r"makefile.").data.isPrefixOf filename then
    some ((r"Makefile").data)
  else if filename = (r"dockerfile").data ∨ (r"dockerfile.").data.isPrefixOf filename then
    some ((r"Dockerfile").data)
  else if filename = (r"vagrantfile").data then some ((r"Ruby (Vagrant)").data)
  else if filename = (r"jenkinsfile").data then some ((r"Groovy (Jenkins)").data)
  else if filename = (r"package.json").data ∨ filename = (r"package-lock.json").data then
    some ((r"JSON (npm)").data)
  else if filename = (r"gemfile").data then some ((r"Ruby (Bundler)").data)
  else if filename = (r"rakefile").data then some ((r"Ruby (Rake)").data)
  else if filename = (r"requirements.txt").data ∨ filename = (r"setup.py").data then
    some ((r"Python (Package)").data)
  else if filename = (r"cargo.toml").data ∨ filename = (r"cargo.lock").data then
    some ((r"TOML (Rust)").data)
  else none

/-- Source `LanguageDetector.detect_language(file_path, content)`: extension
table first (on the lower-cased path); then, when content was given and is
non-empty (Python truthiness), the ordered content signatures; then the
filename heuristics on the lower-cased base name; else the sentinel. -/
def detect_language (filePath : Str) (content : Option Str) : Str :=
  let ext := splitext_ext (filePath.map Char.toLower)
  match extLookup ext with
  | some lang => lang
  | none =>
    let fromPatterns : Option Str :=
      match content with
      | some c => if c.isEmpty then none else patternMapMatch c
      | none => none
    match fromPatterns with
    | some lang => lang
    | none =>
      let filename := (pyBasename filePath).map Char.toLower
      (filename_heuristics filename).getD ((r"Unknown").data)

/-- Comment-style entry of the `doc_patterns` table in
`CodeParser.extract_documentation`.  The algorithm reads only the keys
`single`, `multi_start`, `multi_end`, `jsdoc_start`, `jsdoc_end`,
`alternate_multi_start` and `alternate_multi_end`; absent keys (for example
the `javadoc_*` keys of the Java entry, which are never read) are `none`. -/
structure DocPatterns where
  single : Option Str
  multi_start : Option Str
  multi_end : Option Str
  jsdoc_start : Option Str
  jsdoc_end : Option Str
  alt_start : Option Str
  alt_end : Option Str
deriving Repr, DecidableEq

def tripleDouble : Str := ['"', '"', '"']
def tripleSingle : Str := [Char.ofNat 39, Char.ofNat 39, Char.ofNat 39]
def litHash : Str := (r"#").data
def litSlashes : Str := (r"//").data
def litBlockOpen : Str := (r"/*").data
def litBlockClose : Str := (r"*/").data
def litJsdocOpen : Str := (r"/**").data
def litBegin : Str := (r"=begin").data
def litEndEq : Str := (r"=end").data

/-- The `doc_patterns` table lookup with its C-style default. -/
def doc_patterns_for (language : Str) : DocPatterns :=
  if language = (r"Python").data then
    ⟨some litHash, some tripleDouble, some tripleDouble, none, none,
      some tripleSingle, some tripleSingle⟩
  else if language = (r"JavaScript").data ∨ language = (r"TypeScript").data then
    ⟨some litSlashes, some litBlockOpen, some litBlockClose,
      some litJsdocOpen, some litBlockClose, none, none⟩
  else if language = (r"Java").data then
    ⟨some litSlashes, some litBlockOpen, some litBlockClose, none, none, none, none⟩
  else if language = (r"C").data ∨ language = (r"C++").data then
    ⟨some litSlashes, some litBlockOpen, some litBlockClose, none, none, none, none⟩
  else if language = (r"Ruby").data then
    ⟨some litHash, some litBegin, some litEndEq, none, none, none, none⟩
  else if language = (r"Go").data then
    ⟨some litSlashes, some litBlockOpen, some litBlockClose, none, none, none, none⟩
  else
    ⟨some litSlashes, some litBlockOpen, some litBlockClose, none, none, none, none⟩

/-- Start markers tried, in source order, skipping absent ones. -/
def docStartMarkers (p : DocPatterns) : List Str :=
  [p.multi_start, p.jsdoc_start, p.alt_start].filterMap id

/-- End markers tried, in source order, skipping absent ones. -/
def docEndMarkers (p : DocPatterns) : List Str :=
  [p.multi_end, p.jsdoc_end, p.alt_end].filterMap id

/-- First index of the substring `pat` at or after position `i`. -/
def firstInfixIdxFrom (pat : Str) : Str → Nat → Option Nat
  | s@(_ :: rest), i =>
    if pat.isPrefixOf s then some i else firstInfixIdxFrom pat rest (i + 1)
  | [], i => if pat.isEmpty then some i else none

/-- Python `s.find(pat)` as an option (`none` for the -1 sentinel). -/
def pyStrFind (s pat : Str) : Option Nat := firstInfixIdxFrom pat s 0

/-- Fragment type of a documentation fragment. -/
inductive DocType
  | single
  | multi
deriving Repr, DecidableEq

/-- One emitted documentation fragment. -/
structure DocFragment where
  dtype : DocType
  content : Str
  line : Nat
deriving Repr, DecidableEq

/-- Per-line scan state of `extract_documentation`. -/
structure DocState where
  inMulti : Bool
  current : Str
  docs : List DocFragment
deriving Repr, DecidableEq

/-- Block-start handling for a line scanned outside a block comment: first
start marker (in order) that prefixes the stripped line wins; when the rest of
the line carries an end marker, the single-line block is emitted at once
(only when its stripped content is non-empty) and the scan stays outside
block state. -/
def docMultiOpenStep (pats : DocPatterns) (st : DocState) (i : Nat) (lc : Str) :
    DocState :=
  match (docStartMarkers pats).find? (fun sp => sp.isPrefixOf lc) with
  | none => st
  | some sp =>
    let cur := pyStrip (lc.drop sp.length)
    if cur ≠ [] ∧ (docEndMarkers pats).any (fun ep => (pyStrFind cur ep).isSome) then
      match (docEndMarkers pats).find? (fun ep => (pyStrFind cur ep).isSome) with
      | some ep =>
        let cleaned := pyStrip (cur.take ((pyStrFind cur ep).getD 0))
        ⟨false, [], st.docs ++ (if cleaned ≠ [] then [⟨.multi, cleaned, i + 1⟩] else [])⟩
      | none => ⟨true, cur, st.docs⟩
    else ⟨true, cur, st.docs⟩

/-- Block-end handling for a line scanned inside a block comment. -/
def docMultiCloseStep (pats : DocPatterns) (st : DocState) (i : Nat) (lc : Str) :
    DocState :=
  match (docEndMarkers pats).find? (fun ep => (pyStrFind lc ep).isSome) with
  | some ep =>
    ⟨false, [],
      st.docs ++ [⟨.multi, st.current ++ [' '] ++ pyStrip (lc.take ((pyStrFind lc ep).getD 0)), i + 1⟩]⟩
  | none => ⟨true, st.current ++ [' '] ++ lc, st.docs⟩

/-- Single-line-comment handling, applied after the block handling of the
same line (using the updated block state, as in the source). -/
def docSingleStep (pats : DocPatterns) (st : DocState) (i : Nat) (lc : Str) :
    DocState :=
  match pats.single with
  | some sm =>
    if !st.inMulti && sm.isPrefixOf lc then
      let text := pyStrip (lc.drop sm.length)
      if text ≠ [] then ⟨st.inMulti, st.current, st.docs ++ [⟨.single, text, i + 1⟩]⟩
      else st
    else st
  | none => st

/-- Handling of one line (0-based index `i`) of `extract_documentation`. -/
def doc_line_step (pats : DocPatterns) (st : DocState) (i : Nat) (line : Str) :
    DocState :=
  let lc := pyStrip line
  let st1 := if st.inMulti then docMultiCloseStep pats st i lc
    else docMultiOpenStep pats st i lc
  docSingleStep pats st1 i lc

/-- The enumeration loop over the split lines. -/
def docFoldAux (pats : DocPatterns) : List Str → Nat → DocState → DocState
  | [], _, st => st
  | l :: rest, i, st => docFoldAux pats rest (i + 1) (doc_line_step pats st i l)

/-- Source `CodeParser.extract_documentation(content, language)`. -/
def extract_documentation (content : Str) (language : Str) : List DocFragment :=
  (docFoldAux (doc_patterns_for language) (pySplitNl content) 0 ⟨false, [], []⟩).docs

/-- Record returned by `CodeParser.parse_file`: the `error` field is `none`
on the success path and set in the exception path. -/
structure FileRecord where
  path : Str
  language : Str
  functions : List FunctionRecord
  size_bytes : Nat
  line_count : Nat
  content : Str
  error : Option Str
deriving Repr, DecidableEq

/-- The record built in the `except` branch of `CodeParser.parse_file`:
language sentinel, empty function list, metrics still computed, error text
attached. -/
def parse_file_error_record (filePath content : Str) (e : Str) : FileRecord :=
  ⟨filePath, (r"Unknown").data, [], utf8ByteLen content, countNl content + 1,
    content, some e⟩

/-- Source `CodeParser.parse_file(file_path, content)`: detect the language,
extract functions, compute the metrics; any exception from the body is caught
and the degraded record returned.  The only modelled exception source is the
normalization `IndexError` of `extract_functions`. -/
def parse_file (filePath content : Str) (parsed : Option PyNode) : FileRecord :=
  let language := detect_language filePath (some content)
  match extract_functions content language filePath parsed with
  | .ok functions =>
    ⟨filePath, language, functions, utf8ByteLen content, countNl content + 1,
      content, none⟩
  | .error e => parse_file_error_record filePath content e

lemma braceDepthAux_cons (stack : Int) (c : Char) (l : Str) :
    braceDepthAux stack (c :: l) =
      braceDepthAux (if c = '{' then stack + 1 else if c = '}' then stack - 1 else stack) l := by
  by_cases h1 : c = '{'
  · subst h1
    simp [braceDepthAux, List.count_cons]
    ring
  · by_cases h2 : c = '}'
    · subst h2
      simp [braceDepthAux, List.count_cons, h1]
      ring
    · simp [braceDepthAux, List.count_cons, h1, h2]

lemma findFrom_range (u : Str) (pos stack : Nat) :
    findClosingBraceFrom u pos stack = -1 ∨
      ((pos : Int) < findClosingBraceFrom u pos stack ∧
        findClosingBraceFrom u pos stack ≤ (pos : Int) + u.length) := by
  induction u generalizing pos stack with
  | nil => left; rfl
  | cons c rest ih =>
    have hstep : ∀ r : Int, r ≤ ((pos + 1 : Nat) : Int) + rest.length →
        r ≤ (pos : Int) + (c :: rest).length := by
      intro r hr
      refine le_trans hr ?_
      simp only [List.length_cons]
      push_cast
      omega
    have hlt : (pos : Int) < ((pos + 1 : Nat) : Int) := by push_cast; omega
    by_cases h1 : c = '{'
    · subst h1
      simp only [findClosingBraceFrom, if_pos rfl]
      rcases ih (pos + 1) (stack + 1) with h | ⟨h2, h3⟩
      · left; exact h
      · right
        exact ⟨lt_trans hlt h2, hstep _ h3⟩
    · by_cases h2 : c = '}'
      · subst h2
        simp only [findClosingBraceFrom, if_neg (by decide : ¬('}' : Char) = '{'), if_pos rfl]
        by_cases h3 : stack = 1
        · simp only [h3, if_pos rfl]
          right
          refine ⟨hlt, hstep _ ?_⟩
          push_cast
          omega
        · simp only [if_neg h3]
          rcases ih (pos + 1) (stack - 1) with h | ⟨h4, h5⟩
          · left; exact h
          · right
            exact ⟨lt_trans hlt h4, hstep _ h5⟩
      · simp only [findClosingBraceFrom, if_neg h1, if_neg h2]
        rcases ih (pos + 1) stack with h | ⟨h4, h5⟩
        · left; exact h
        · right
          exact ⟨lt_trans hlt h4, hstep _ h5⟩

lemma findFrom_eq_neg_iff (u : Str) (pos stack : Nat) (hs : 1 ≤ stack) :
    findClosingBraceFrom u pos stack = -1 ↔
      ∀ k, k ≤ u.length → 0 < braceDepthAux (stack : Int) (u.take k) := by
  induction u generalizing pos stack with
  | nil =>
    constructor
    · intro _ k hk
      simp only [List.length_nil, Nat.le_zero] at hk
      subst hk
      simp [braceDepthAux]
      omega
    · intro _
      rfl
  | cons c rest ih =>
    have step : ∀ k, (c :: rest).take (k + 1) = c :: rest.take k := fun k => rfl
    have hdep0 : (0 : Int) < braceDepthAux (stack : Int) ((c :: rest).take 0) := by
      simp [braceDepthAux]
      omega
    by_cases h1 : c = '{'
    · subst h1
      have hred : findClosingBraceFrom ('{' :: rest) pos stack =
          findClosingBraceFrom rest (pos + 1) (stack + 1) := rfl
      have hcast : (((stack + 1 : Nat)) : Int) = (stack : Int) + 1 := by push_cast; ring
      rw [hred, ih (pos + 1) (stack + 1) (by omega)]
      constructor
      · intro h k hk
        match k with
        | 0 => exact hdep0
        | k + 1 =>
          rw [step, braceDepthAux_cons, if_pos rfl]
          have := h k (by simp only [List.length_cons] at hk; omega)
          rw [hcast] at this
          exact this
      · intro h k hk
        have := h (k + 1) (by simp only [List.length_cons]; omega)
        rw [step, braceDepthAux_cons, if_pos rfl] at this
        rw [hcast]
        exact this
    · by_cases h2 : c = '}'
      · subst h2
        have hnb : ¬('}' : Char) = '{' := by decide
        have hred : findClosingBraceFrom ('}' :: rest) pos stack =
            if stack = 1 then ((pos + 1 : Nat) : Int)
            else findClosingBraceFrom rest (pos + 1) (stack - 1) := rfl
        rw [hred]
        by_cases h3 : stack = 1
        · subst h3
          constructor
          · intro hc
            rw [if_pos rfl] at hc
            exfalso
            omega
          · intro h
            exfalso
            have := h 1 (by simp only [List.length_cons]; omega)
            rw [step, braceDepthAux_cons, if_neg hnb, if_pos rfl, List.take_zero] at this
            have hz : braceDepthAux (((1 : Nat) : Int) - 1) ([] : Str) = 0 := by decide
            rw [hz] at this
            exact lt_irrefl 0 this
        · have hcast : (((stack - 1 : Nat)) : Int) = (stack : Int) - 1 := by omega
          simp only [if_neg h3]
          rw [ih (pos + 1) (stack - 1) (by omega)]
          constructor
          · intro h k hk
            match k with
            | 0 => exact hdep0
            | k + 1 =>
              rw [step, braceDepthAux_cons, if_neg hnb, if_pos rfl]
              have := h k (by simp only [List.length_cons] at hk; omega)
              rw [hcast] at this
              exact this
          · intro h k hk
            have := h (k + 1) (by simp only [List.length_cons]; omega)
            rw [step, braceDepthAux_cons, if_neg hnb, if_pos rfl] at this
            rw [hcast]
            exact this
      · have hred : findClosingBraceFrom (c :: rest) pos stack =
            findClosingBraceFrom rest (pos + 1) stack := by
          simp only [findClosingBraceFrom, if_neg h1, if_neg h2]
        rw [hred, ih (pos + 1) stack hs]
        constructor
        · intro h k hk
          match k with
          | 0 => exact hdep0
          | k + 1 =>
            rw [step, braceDepthAux_cons, if_neg h1, if_neg h2]
            exact h k (by simp only [List.length_cons] at hk; omega)
        · intro h k hk
          have := h (k + 1) (by simp only [List.length_cons]; omega)
          rw [step, braceDepthAux_cons, if_neg h1, if_neg h2] at this
          exact this

lemma findFrom_pos_result (u : Str) (pos stack : Nat) (hs : 1 ≤ stack) :
    ∀ k, k < u.length →
      braceDepthAux (stack : Int) (u.take (k + 1)) = 0 →
      (∀ j, j ≤ k → 0 < braceDepthAux (stack : Int) (u.take j)) →
      u[k]? = some '}' ∧ findClosingBraceFrom u pos stack = ((pos + k + 1 : Nat) : Int) := by
  induction u generalizing pos stack with
  | nil =>
    intro k hk
    simp at hk
  | cons c rest ih =>
    intro k hk hzero hpos
    have step : ∀ j, (c :: rest).take (j + 1) = c :: rest.take j := fun j => rfl
    match k with
    | 0 =>
      rw [step, braceDepthAux_cons, List.take_zero] at hzero
      by_cases h1 : c = '{'
      · exfalso
        rw [if_pos h1] at hzero
        simp [braceDepthAux] at hzero
        omega
      · by_cases h2 : c = '}'
        · subst h2
          rw [if_neg h1, if_pos rfl] at hzero
          simp [braceDepthAux] at hzero
          have hstack : stack = 1 := by omega
          subst hstack
          exact ⟨by simp, rfl⟩
        · exfalso
          rw [if_neg h1, if_neg h2] at hzero
          simp [braceDepthAux] at hzero
          omega
    | k + 1 =>
      have h1pos := hpos 1 (by omega)
      rw [step, braceDepthAux_cons, List.take_zero] at h1pos
      have hzero2 := hzero
      rw [step, braceDepthAux_cons] at hzero2
      have hidx : (c :: rest)[k + 1]? = rest[k]? := by
        simp
      by_cases h1 : c = '{'
      · subst h1
        have hcast : (((stack + 1 : Nat)) : Int) = (stack : Int) + 1 := by push_cast; ring
        rw [if_pos rfl] at hzero2
        have hrec := ih (pos + 1) (stack + 1) (by omega) k
          (by simp only [List.length_cons] at hk; omega)
          (by rw [hcast]; exact hzero2)
          (by
            intro j hj
            have := hpos (j + 1) (by omega)
            rw [step, braceDepthAux_cons, if_pos rfl] at this
            rw [hcast]
            exact this)
        refine ⟨by rw [hidx]; exact hrec.1, ?_⟩
        have hred : findClosingBraceFrom ('{' :: rest) pos stack =
            findClosingBraceFrom rest (pos + 1) (stack + 1) := rfl
        rw [hred, hrec.2]
        push_cast
        ring
      · by_cases h2 : c = '}'
        · subst h2
          have hnb : ¬('}' : Char) = '{' := by decide
          rw [if_neg hnb, if_pos rfl] at h1pos
          have hstack2 : 2 ≤ stack := by
            simp [braceDepthAux] at h1pos
            omega
          have hcast : (((stack - 1 : Nat)) : Int) = (stack : Int) - 1 := by omega
          rw [if_neg hnb, if_pos rfl] at hzero2
          have hrec := ih (pos + 1) (stack - 1) (by omega) k
            (by simp only [List.length_cons] at hk; omega)
            (by rw [hcast]; exact hzero2)
            (by
              intro j hj
              have := hpos (j + 1) (by omega)
              rw [step, braceDepthAux_cons, if_neg hnb, if_pos rfl] at this
              rw [hcast]
              exact this)
          refine ⟨by rw [hidx]; exact hrec.1, ?_⟩
          have hred : findClosingBraceFrom ('}' :: rest) pos stack =
              if stack = 1 then ((pos + 1 : Nat) : Int)
              else findClosingBraceFrom rest (pos + 1) (stack - 1) := rfl
          rw [hred, if_neg (by omega : ¬stack = 1), hrec.2]
          push_cast
          ring
        · rw [if_neg h1, if_neg h2] at hzero2
          have hrec := ih (pos + 1) stack hs k
            (by simp only [List.length_cons] at hk; omega)
            hzero2
            (by
              intro j hj
              have := hpos (j + 1) (by omega)
              rw [step, braceDepthAux_cons, if_neg h1, if_neg h2] at this
              exact this)
          refine ⟨by rw [hidx]; exact hrec.1, ?_⟩
          have hred : findClosingBraceFrom (c :: rest) pos stack =
              findClosingBraceFrom rest (pos + 1) stack := by
            simp only [findClosingBraceFrom, if_neg h1, if_neg h2]
          rw [hred, hrec.2]
          push_cast
          ring

/-- C6: the brace matcher keeps a depth counter that starts at 1, goes up on
an opening brace and down on a closing one, and returns the position right
after the closing brace that brings the depth to 0 (stated as: at the first
position where the scanned text reaches depth 0, the scanned character is a
closing brace and the result is that absolute position plus one); on the
two-character input of an opening and a closing brace, scanning from offset 1,
it returns 2; and it returns the -1 sentinel exactly when every prefix of the
scanned text keeps the depth positive, that is, when the text ends before the
depth reaches 0 (for example with an extra unmatched opening brace). -/
theorem find_closing_brace_spec :
    find_closing_brace ['{', '}'] 1 = 2 ∧
    find_closing_brace ['{', '{', '}'] 1 = -1 ∧
    (∀ (content : Str) (startPos : Nat),
      (find_closing_brace content startPos = -1 ↔
        ∀ k, k ≤ (content.drop startPos).length →
          0 < braceDepth ((content.drop startPos).take k)) ∧
      (∀ k, k < (content.drop startPos).length →
        braceDepth ((content.drop startPos).take (k + 1)) = 0 →
        (∀ j, j ≤ k → 0 < braceDepth ((content.drop startPos).take j)) →
        (content.drop startPos)[k]? = some '}' ∧
          find_closing_brace content startPos = ((startPos + k + 1 : Nat) : Int))) := by
  refine ⟨by decide, by decide, ?_⟩
  intro content startPos
  constructor
  · simpa [braceDepth, Nat.cast_one] using
      findFrom_eq_neg_iff (content.drop startPos) startPos 1 (le_refl 1)
  · intro k hk hzero hpos
    have := findFrom_pos_result (content.drop startPos) startPos 1 (le_refl 1) k hk
      (by simpa [braceDepth, Nat.cast_one] using hzero)
      (by simpa [braceDepth, Nat.cast_one] using hpos)
    exact this

/-- Witness for C6 at a concrete input: the matching brace of the span
of an opening brace, one other character and a closing brace. -/
theorem find_closing_brace_spec_witness :
    ((['{', 'x', '}'] : Str).drop 1)[1]? = some '}' ∧
      find_closing_brace ['{', 'x', '}'] 1 = ((1 + 1 + 1 : Nat) : Int) :=
  (find_closing_brace_spec.2.2 ['{', 'x', '}'] 1).2 1 (by decide) (by decide)
    (fun j hj => by
      interval_cases j <;> decide)

/-- C5: the detector is a total function (hence never raises) implementing
the stated priority: a case-insensitive extension lookup whose hit is
returned at once with the exact table label (in particular the Rust and
TypeScript-React examples, for arbitrary content); otherwise, for non-empty
provided content, the first matching content signature in table order;
otherwise the filename heuristics, whose misses yield the sentinel label. -/
theorem detect_language_spec :
    (∀ c, detect_language ((r"file.rs").data) c = (r"Rust").data) ∧
    (∀ c, detect_language ((r"file.tsx").data) c = (r"TypeScript (React)").data) ∧
    (∀ path c lbl, extLookup (splitext_ext (path.map Char.toLower)) = some lbl →
      detect_language path c = lbl) ∧
    (∀ path c lbl, extLookup (splitext_ext (path.map Char.toLower)) = none →
      c ≠ [] → patternMapMatch c = some lbl →
      detect_language path (some c) = lbl) ∧
    (∀ path c, extLookup (splitext_ext (path.map Char.toLower)) = none →
      (∀ cc, c = some cc → cc = [] ∨ patternMapMatch cc = none) →
      detect_language path c =
        (filename_heuristics ((pyBasename path).map Char.toLower)).getD
          ((r"Unknown").data)) := by
  refine ⟨fun c => rfl, fun c => rfl, ?_, ?_, ?_⟩
  · intro path c lbl h
    simp only [detect_language, h]
  · intro path c lbl h hne hpat
    have hempty : c.isEmpty = false := by
      cases c
      · exact absurd rfl hne
      · rfl
    simp only [detect_language, h, hempty, hpat, Bool.false_eq_true, if_false]
  · intro path c h hcc
    match c with
    | none => simp only [detect_language, h]
    | some cc =>
      rcases hcc cc rfl with hemp | hnopat
      · subst hemp
        simp only [detect_language, h, List.isEmpty_nil, if_true]
      · have hempty : cc.isEmpty = true ∨ cc.isEmpty = false := by
          cases cc.isEmpty
          · right; rfl
          · left; rfl
        rcases hempty with he | he <;>
          simp only [detect_language, h, he, hnopat, Bool.false_eq_true, if_false, if_true]

/-- Witness for C5 at concrete inputs: an upper-case Python extension hit, a
shebang-driven detection, and an unknown file falling through to the
sentinel. -/
theorem detect_language_spec_witness :
    detect_language ((r"dir/code.PY").data) none = (r"Python").data ∧
    detect_language ((r"script").data)
        (some ((r"#!/usr/bin/env python3").data)) = (r"Python").data ∧
    detect_language ((r"data.xyz").data) (some ((r"plain text").data)) =
      (r"Unknown").data :=
  ⟨detect_language_spec.2.2.1 ((r"dir/code.PY").data) none ((r"Python").data)
      (by decide),
    detect_language_spec.2.2.2.1 ((r"script").data)
      ((r"#!/usr/bin/env python3").data) ((r"Python").data)
      (by decide) (by decide) (by decide),
    detect_language_spec.2.2.2.2 ((r"data.xyz").data)
      (some ((r"plain text").data)) (by decide)
      (fun cc hcc => by
        rw [Option.some.injEq] at hcc
        subst hcc
        right
        decide)⟩

lemma not_mem_pySpaceCodes {n : Nat} (h1 : 65 ≤ n) (h2 : n ≤ 122) :
    ¬ n ∈ pySpaceCodes := by
  intro h3
  fin_cases h3 <;> omega

lemma isPySpace_toLower (c : Char) : isPySpace c.toLower = isPySpace c := by
  unfold Char.toLower
  by_cases h : c.toNat ≥ 65 ∧ c.toNat ≤ 90
  · rw [if_pos h]
    have hn : (Char.ofNat (c.toNat + 32)).toNat = c.toNat + 32 := by
      have hv : (c.toNat + 32).isValidChar := Or.inl (by omega)
      have hv2 : (c.val.toBitVec.toNat + 32).isValidChar := hv
      simp [Char.ofNat, Char.toNat, Char.ofNatAux, hv2, UInt32.toNat, UInt32.ofNatCore]
    have hm1 : ¬ (c.toNat + 32) ∈ pySpaceCodes :=
      not_mem_pySpaceCodes (by omega) (by omega)
    have hm2 : ¬ c.toNat ∈ pySpaceCodes := not_mem_pySpaceCodes (by omega) (by omega)
    simp [isPySpace, hn, hm1, hm2]
  · rw [if_neg h]

lemma dropWhile_ne_nil_of_exists {p : Char → Bool} {l : Str}
    (h : ∃ c ∈ l, ¬ p c = true) : l.dropWhile p ≠ [] := by
  induction l with
  | nil =>
    rcases h with ⟨c, hc, _⟩
    cases hc
  | cons a t ih =>
    rcases h with ⟨c, hc, hnp⟩
    by_cases hpa : p a
    · rw [List.dropWhile_cons, if_pos hpa]
      apply ih
      rcases List.mem_cons.mp hc with hca | hmem
      · exact absurd (hca ▸ hpa) hnp
      · exact ⟨c, hmem, hnp⟩
    · rw [List.dropWhile_cons, if_neg hpa]
      simp

/-- C1 counterexample: at the empty language label the normalization line
`language.lower().split()[0]` raises `IndexError` before the protective `try`
block is entered, so `extract_functions` does raise for this input triple. -/
theorem extract_functions_spec_counterexample :
    extract_functions ((r"def f(): pass").data) [] ((r"f.py").data) none =
      .error ((r"IndexError: list index out of range").data) := rfl

/-- C1 amended: for every input triple whose language label contains at least
one non-whitespace character, `extract_functions` returns normally (in the
model: an `ok` result; every failure inside the `try` block is caught and
mapped to an empty sequence, and the modelled handlers are total). -/
theorem extract_functions_total_amended :
    ∀ (fileContent language filePath : Str) (parsed : Option PyNode),
      (∃ ch ∈ language, isPySpace ch = false) →
      ∃ fns, extract_functions fileContent language filePath parsed = .ok fns := by
  intro fc lang fp parsed h
  rcases h with ⟨ch, hin, hns⟩
  have hmap : ∃ c ∈ lang.map Char.toLower, ¬ isPySpace c = true := by
    refine ⟨ch.toLower, List.mem_map_of_mem _ hin, ?_⟩
    rw [isPySpace_toLower, hns]
    simp
  have hd := dropWhile_ne_nil_of_exists hmap
  have hempty : ((lang.map Char.toLower).dropWhile isPySpace).isEmpty = false := by
    cases hcase : (lang.map Char.toLower).dropWhile isPySpace
    · exact absurd hcase hd
    · rfl
  unfold extract_functions normalize_language pyFirstToken
  simp only [hempty, Bool.false_eq_true, if_false, Option.map_some]
  exact ⟨_, rfl⟩

/-- Witness for the amended C1 at a concrete triple. -/
theorem extract_functions_total_amended_witness :
    (∃ ch ∈ (r"JavaScript").data, isPySpace ch = false) ∧
      ∃ fns, extract_functions ((r"function f()").data ++ ['{', '}'])
        ((r"JavaScript").data) ((r"f.js").data) none = .ok fns :=
  ⟨⟨'J', by decide⟩,
    extract_functions_total_amended ((r"function f()").data ++ ['{', '}'])
      ((r"JavaScript").data) ((r"f.js").data) none ⟨'J', by decide⟩⟩

/-- Content of the C3 example file: a single JavaScript function declaration
with a one-line balanced body. -/
def jsAddContent : Str :=
  (r"function add(a, b) ").data ++ ['{'] ++ (r" return a + b; ").data ++ ['}']

/-- The records the JS handler emits for that file: the function-declaration
pattern and the method-shorthand pattern both match the same text, so the
same function is reported twice (full span, and span from the name on). -/
def jsAddRecords : List FunctionRecord :=
  [⟨(r"add").data, (r"add(a, b)").data, [], 1, 1, jsAddContent⟩,
    ⟨(r"add").data, (r"add(a, b)").data, [], 1, 1, jsAddContent.drop 9⟩]

/-- C3 counterexample: extraction on the example file yields two records,
not exactly one as claimed (the method-shorthand pattern also matches the
declaration). -/
theorem js_add_extraction_counterexample :
    (extract_functions jsAddContent ((r"JavaScript").data) ((r"add.js").data)
      none).map List.length = .ok 2 := by rfl

/-- C3 amended: extraction on the example file yields exactly two records,
both named for the one function, and both source spans have equal counts of
opening and closing braces. -/
theorem js_add_extraction_amended :
    extract_functions jsAddContent ((r"JavaScript").data) ((r"add.js").data) none =
      .ok jsAddRecords ∧
    jsAddRecords.length = 2 ∧
    jsAddRecords.map FunctionRecord.name = [(r"add").data, (r"add").data] ∧
    jsAddRecords.map (fun r => (r.code.count '{', r.code.count '}')) =
      [(1, 1), (1, 1)] := by
  exact ⟨by rfl, rfl, by rfl, by decide⟩

/-- Content of the C4 example file: one class with one method and no other
function definition. -/
def pyClassContent : Str :=
  (r"class C:").data ++ ['\n'] ++ (r"    def m(self):").data ++ ['\n'] ++
    (r"        pass").data

/-- The tree CPython `ast.parse` produces for `pyClassContent` (module, class
C on lines 1-3, method m on lines 2-3 with single argument `self`, no
`**kwargs`, no docstring, body a single `pass` statement). -/
def pyClassTree : PyNode :=
  .other [.classDef ((r"C").data) 1 3
    [.functionDef ((r"m").data) [(r"self").data] none none 2 3 [.other []]]]

lemma pyClassExtract :
    extract_functions pyClassContent ((r"Python").data) ((r"t.py").data)
        (some pyClassTree) =
      .ok [pyFnRecord pyClassContent (some ((r"C").data)) ((r"m").data)
          [(r"self").data] none none 2 3,
        pyFnRecord pyClassContent none ((r"m").data) [(r"self").data] none none 2 3] := by
  show Except.ok (pyExtractFromTree pyClassContent pyClassTree) = _
  unfold pyExtractFromTree pyClassTree
  simp only [pyWalk, nodeChildren, List.nil_append, List.append_nil, List.map_cons,
    List.map_nil, List.flatten_cons, List.flatten_nil, pyNodeRecords,
    List.filterMap_cons, List.filterMap_nil]
  rfl

/-- C4 counterexample: the Python handler emits two records for the single
method, not one: `ast.walk` reaches the method node both through its class
(giving the qualified record) and directly (giving a bare record). -/
theorem py_class_method_counterexample :
    (extract_functions pyClassContent ((r"Python").data) ((r"t.py").data)
      (some pyClassTree)).map List.length = .ok 2 := by
  rw [pyClassExtract]
  rfl

/-- C4 amended: for any Python file whose parsed tree is a module holding one
class with exactly one method (whose body contains no further definitions),
extraction yields exactly two records for that method: first the
class-qualified record named `ClassName.method_name`, then a bare record
named `method_name`. -/
theorem py_class_method_amended :
    ∀ (content filePath cname mname : Str) (argNames : List Str)
      (kwarg docstring : Option Str) (cl ce l e : Nat) (inner : List PyNode),
      (∀ n ∈ pyWalk inner, pyNodeRecords content n = []) →
      extract_functions content ((r"Python").data) filePath
          (some (.other [.classDef cname cl ce
            [.functionDef mname argNames kwarg docstring l e inner]])) =
        .ok [pyFnRecord content (some cname) mname argNames kwarg docstring l e,
          pyFnRecord content none mname argNames kwarg docstring l e] ∧
      (pyFnRecord content (some cname) mname argNames kwarg docstring l e).name =
        cname ++ ['.'] ++ mname ∧
      (pyFnRecord content none mname argNames kwarg docstring l e).name = mname := by
  intro content filePath cname mname argNames kwarg docstring cl ce l e inner hinner
  refine ⟨?_, rfl, rfl⟩
  show Except.ok (pyExtractFromTree content (.other [.classDef cname cl ce
    [.functionDef mname argNames kwarg docstring l e inner]])) = _
  have htail : ((pyWalk inner).map (pyNodeRecords content)).flatten = [] := by
    refine List.flatten_eq_nil_iff.mpr ?_
    intro lrec hl
    rcases List.mem_map.mp hl with ⟨n, hn, hrec⟩
    rw [← hrec]
    exact hinner n hn
  unfold pyExtractFromTree
  simp only [pyWalk, nodeChildren, List.nil_append, List.map_cons, List.flatten_cons,
    pyNodeRecords, List.filterMap_cons, List.filterMap_nil, htail]
  rfl

/-- Witness for the amended C4 at the concrete example file and tree. -/
theorem py_class_method_amended_witness :
    extract_functions pyClassContent ((r"Python").data) ((r"t.py").data)
        (some (.other [.classDef ((r"C").data) 1 3
          [.functionDef ((r"m").data) [(r"self").data] none none 2 3 [.other []]]])) =
      .ok [pyFnRecord pyClassContent (some ((r"C").data)) ((r"m").data)
          [(r"self").data] none none 2 3,
        pyFnRecord pyClassContent none ((r"m").data) [(r"self").data] none none 2 3] ∧
    (pyFnRecord pyClassContent (some ((r"C").data)) ((r"m").data)
        [(r"self").data] none none 2 3).name = (r"C").data ++ ['.'] ++ (r"m").data ∧
    (pyFnRecord pyClassContent none ((r"m").data)
        [(r"self").data] none none 2 3).name = (r"m").data :=
  py_class_method_amended pyClassContent ((r"t.py").data) ((r"C").data) ((r"m").data)
    [(r"self").data] none none 1 3 2 3 [.other []]
    (by
      intro n hn
      simp only [pyWalk, nodeChildren, List.nil_append, List.append_nil] at hn
      rw [List.mem_singleton.mp hn]
      rfl)

lemma pyFindFrom_eq_none {content : Str} {c : Char} (s : Nat) (h : ¬ c ∈ content) :
    pyFindFrom content c s = none := by
  unfold pyFindFrom
  have hnone : (content.drop s).findIdx? (fun d => d = c) = none := by
    rw [List.findIdx?_eq_none_iff]
    intro x hx
    simp only [decide_eq_false_iff_not]
    intro hxc
    exact h (hxc ▸ List.mem_of_mem_drop hx)
  rw [hnone]

lemma genericRecords_eq_nil {content : Str} (h : ¬ '{' ∈ content) (mt : Matcher) :
    genericRecords content mt = [] := by
  unfold genericRecords
  refine List.filterMap_eq_nil_iff.mpr ?_
  intro m hm
  have hcond : (content.drop (m.mend - 1)).head? ≠ some '{' := by
    intro hh
    exact h (List.mem_of_mem_drop (List.mem_of_mem_head? hh))
  rw [if_pos hcond, pyFindFrom_eq_none m.mend h]

/-- C7 counterexample: for a Ruby file holding a method definition with no
`end` keyword anywhere after it, the Ruby handler still emits a record (its
span simply runs to the end of the file), contradicting the claim that the
candidate is skipped. -/
theorem unterminated_skip_counterexample :
    extract_functions ((r"def m").data) ((r"Ruby").data) ((r"a.rb").data) none =
      .ok [⟨(r"m").data, (r"m()").data, [], 1, 1, (r"def m").data⟩] := by rfl

/-- C7 amended: when the body terminator cannot be found, only the Rust and
generic handlers skip the candidate (stated here for files with no opening
brace at all, where every candidate lacks its terminator); the Ruby handler
with no `end` after the definition emits a record spanning to the end of the
file, and the JS/TS handler emits a record whose end offset is the -1
sentinel of the brace matcher (so its span drops the final character of the
file). -/
theorem unterminated_skip_amended :
    (∀ content : Str, ¬ '{' ∈ content →
      extract_rust_functions content = [] ∧ extract_generic_functions content = []) ∧
    extract_ruby_functions ((r"def m").data ++ ['\n', 'x']) =
      [⟨(r"m").data, (r"m()").data, [], 1, 2, (r"def m").data ++ ['\n', 'x']⟩] ∧
    extract_js_ts_functions ((r"function f()").data ++ ['{']) =
      [⟨(r"f").data, (r"f()").data, [], 1, 1, (r"function f()").data⟩,
        ⟨(r"f").data, (r"f()").data, [], 1, 1, (r"f()").data⟩] := by
  refine ⟨?_, by rfl, by rfl⟩
  intro content h
  constructor
  · unfold extract_rust_functions
    refine List.filterMap_eq_nil_iff.mpr ?_
    intro m hm
    rw [pyFindFrom_eq_none m.mend h]
  · unfold extract_generic_functions
    rw [genericRecords_eq_nil h, genericRecords_eq_nil h, genericRecords_eq_nil h]
    rfl

/-- Witness for the amended C7: a Rust signature with no brace anywhere. -/
theorem unterminated_skip_amended_witness :
    ¬ '{' ∈ ((r"pub fn f(x: u8)").data) ∧
      extract_rust_functions ((r"pub fn f(x: u8)").data) = [] ∧
      extract_generic_functions ((r"pub fn f(x: u8)").data) = [] :=
  ⟨by decide, unterminated_skip_amended.1 ((r"pub fn f(x: u8)").data) (by decide)⟩

/-- C8: `parse_file` is total and, in the success branch and in the error
branch alike, computes `size_bytes` as the UTF-8 byte length of the content
and `line_count` as the newline count plus one; the record built by the
exception branch carries the sentinel language, the empty function list, and
the error text. -/
theorem parse_file_spec :
    (∀ (filePath content : Str) (parsed : Option PyNode),
      (parse_file filePath content parsed).size_bytes = utf8ByteLen content ∧
      (parse_file filePath content parsed).line_count = countNl content + 1) ∧
    (∀ filePath content e : Str,
      (parse_file_error_record filePath content e).language = (r"Unknown").data ∧
      (parse_file_error_record filePath content e).functions = [] ∧
      (parse_file_error_record filePath content e).error = some e ∧
      (parse_file_error_record filePath content e).size_bytes = utf8ByteLen content ∧
      (parse_file_error_record filePath content e).line_count = countNl content + 1) := by
  constructor
  · intro filePath content parsed
    constructor
    · simp only [parse_file]
      split
      · rfl
      · rfl
    · simp only [parse_file]
      split
      · rfl
      · rfl
  · intro filePath content e
    exact ⟨rfl, rfl, rfl, rfl, rfl⟩

/-- C10: the record returned by `parse_file` carries the input content
verbatim in its content field, on the success path and on the error path
alike. -/
theorem parse_file_content_verbatim :
    ∀ (filePath content : Str) (parsed : Option PyNode),
      (parse_file filePath content parsed).content = content ∧
      ∀ e : Str, (parse_file_error_record filePath content e).content = content := by
  intro filePath content parsed
  constructor
  · simp only [parse_file]
    split
    · rfl
    · rfl
  · intro e
    rfl

/-- C9 counterexample: a Python line consisting of an opening triple quote
immediately followed by a closing one starts with the block-start marker and
contains a closing marker, yet no multi fragment is emitted (the enclosed
text is empty).  The second conjunct shows the scan still continues outside
block state: the hash comment on the next line is emitted as a single
fragment, which could not happen inside a block. -/
theorem doc_empty_block_counterexample :
    extract_documentation (tripleDouble ++ tripleDouble) ((r"Python").data) = [] ∧
    extract_documentation (tripleDouble ++ tripleDouble ++ ['\n'] ++ (r"# x").data)
      ((r"Python").data) = [⟨.single, ['x'], 2⟩] := ⟨rfl, rfl⟩

/-- C9 amended: a Python file whose first line is a triple-quoted module
docstring yields exactly one multi fragment with the quoted text at line 1;
in general, a line scanned outside block state that begins with a block-start
marker and whose remainder carries a closing marker emits a multi fragment
immediately when the enclosed text (markers and whitespace stripped) is
non-empty, and the scan remains outside block-comment state (when the
enclosed text is empty, nothing is emitted, though the scan still remains
outside block state). -/
theorem doc_single_line_block_amended :
    extract_documentation (tripleDouble ++ (r"Module doc.").data ++ tripleDouble)
      ((r"Python").data) = [⟨.multi, (r"Module doc.").data, 1⟩] ∧
    ∀ (pats : DocPatterns) (docs : List DocFragment) (i : Nat)
      (line sp ep cur cleaned : Str),
      (docStartMarkers pats).find? (fun q => q.isPrefixOf (pyStrip line)) = some sp →
      cur = pyStrip ((pyStrip line).drop sp.length) →
      (docEndMarkers pats).find? (fun q => (pyStrFind cur q).isSome) = some ep →
      cur ≠ [] →
      cleaned = pyStrip (cur.take ((pyStrFind cur ep).getD 0)) →
      cleaned ≠ [] →
      (∀ sm, pats.single = some sm → ¬ sm.isPrefixOf (pyStrip line) = true) →
      doc_line_step pats ⟨false, [], docs⟩ i line =
        ⟨false, [], docs ++ [⟨.multi, cleaned, i + 1⟩]⟩ := by
  refine ⟨rfl, ?_⟩
  intro pats docs i line sp ep cur cleaned hsp hcur hep hcurne hcl hclne hsingle
  subst hcur
  subst hcl
  show docSingleStep pats (docMultiOpenStep pats ⟨false, [], docs⟩ i (pyStrip line)) i
      (pyStrip line) = _
  have hmem : ep ∈ docEndMarkers pats := List.mem_of_find?_eq_some hep
  have hprop := @List.find?_some Str
    (fun q => (pyStrFind (pyStrip ((pyStrip line).drop sp.length)) q).isSome) ep
    (docEndMarkers pats) hep
  have hany : (docEndMarkers pats).any
      (fun q => (pyStrFind (pyStrip ((pyStrip line).drop sp.length)) q).isSome) = true :=
    List.any_eq_true.mpr ⟨ep, hmem, hprop⟩
  have hopen : docMultiOpenStep pats ⟨false, [], docs⟩ i (pyStrip line) =
      ⟨false, [], docs ++ [⟨.multi,
        pyStrip ((pyStrip ((pyStrip line).drop sp.length)).take
          ((pyStrFind (pyStrip ((pyStrip line).drop sp.length)) ep).getD 0)), i + 1⟩]⟩ := by
    unfold docMultiOpenStep
    rw [hsp]
    dsimp only
    rw [if_pos ⟨hcurne, hany⟩, hep]
    dsimp only
    rw [if_pos hclne]
  rw [hopen]
  unfold docSingleStep
  cases hsm : pats.single with
  | none => rfl
  | some sm =>
    have hpref : sm.isPrefixOf (pyStrip line) = false :=
      Bool.eq_false_iff.mpr (hsingle sm hsm)
    simp only [hpref, Bool.not_false, Bool.false_and, Bool.and_false, Bool.true_and,
      Bool.false_eq_true, if_false]

/-- Witness for the amended C9 at a concrete Python docstring line. -/
theorem doc_single_line_block_amended_witness :
    doc_line_step (doc_patterns_for ((r"Python").data)) ⟨false, [], []⟩ 0
        (tripleDouble ++ (r"Doc.").data ++ tripleDouble) =
      ⟨false, [], [⟨.multi, (r"Doc.").data, 1⟩]⟩ :=
  doc_single_line_block_amended.2 (doc_patterns_for ((r"Python").data)) [] 0
    (tripleDouble ++ (r"Doc.").data ++ tripleDouble) tripleDouble tripleDouble
    ((r"Doc.").data ++ tripleDouble) ((r"Doc.").data)
    (by decide) (by decide) (by decide) (by decide) (by decide) (by decide)
    (by
      intro sm hsm
      have : sm = litHash := by
        have : (doc_patterns_for ((r"Python").data)).single = some litHash := rfl
        rw [this] at hsm
        exact (Option.some.injEq _ _ ▸ hsm).symm
      subst this
      decide)

/-- Well-formedness target of C2 for one record. -/
def recordWF (r : FunctionRecord) : Prop :=
  1 ≤ r.start_line ∧ r.start_line ≤ r.end_line

lemma finditerAux_bounds (mt : Matcher) :
    ∀ (fuel : Nat) (s : Str) (pos : Nat) (prev : Option Char),
      ∀ m ∈ finditerAux mt fuel s pos prev,
        pos ≤ m.mstart ∧ m.mstart < pos + s.length ∧ m.mstart ≤ m.mend ∧
          m.mend ≤ pos + s.length := by
  intro fuel
  induction fuel with
  | zero =>
    intro s pos prev m hm
    simp [finditerAux] at hm
  | succ fuel ih =>
    intro s pos prev m hm
    match s with
    | [] => simp [finditerAux] at hm
    | c :: rest =>
      rw [finditerAux] at hm
      cases hmt : mt prev (c :: rest) with
      | none =>
        rw [hmt] at hm
        have := ih rest (pos + 1) (some c) m hm
        simp only [List.length_cons]
        omega
      | some pr =>
        rw [hmt] at hm
        dsimp only at hm
        by_cases hlt : pr.2.length < (c :: rest).length
        · rw [if_pos hlt] at hm
          rcases List.mem_cons.mp hm with hm | hm
          · subst hm
            simp only [List.length_cons] at hlt ⊢
            omega
          · have := ih pr.2 (pos + ((c :: rest).length - pr.2.length))
              (((c :: rest).take ((c :: rest).length - pr.2.length)).getLast?) m hm
            simp only [List.length_cons] at hlt this ⊢
            omega
        · rw [if_neg hlt] at hm
          rcases List.mem_cons.mp hm with hm | hm
          · subst hm
            simp only [List.length_cons]
            omega
          · have := ih rest (pos + 1) (some c) m hm
            simp only [List.length_cons]
            omega

lemma pyFinditer_bounds (mt : Matcher) (content : Str) :
    ∀ m ∈ pyFinditer mt content,
      m.mstart < content.length ∧ m.mstart ≤ m.mend ∧ m.mend ≤ content.length := by
  intro m hm
  have := finditerAux_bounds mt content.length content 0 none m hm
  omega

lemma countNl_take_mono (content : Str) {a b : Nat} (h : a ≤ b) :
    countNl (content.take a) ≤ countNl (content.take b) := by
  unfold countNl
  have heq : content.take a = (content.take b).take a := by
    rw [List.take_take, min_eq_left h]
  rw [heq]
  exact ((content.take b).take_sublist a).count_le '\n'

lemma mkSpanRecord_wf (content name sig : Str) (startPos : Nat) (endI : Int)
    (h : startPos ≤ pyIdx content endI) :
    recordWF (mkSpanRecord content name sig startPos endI) := by
  unfold recordWF
  constructor
  · show 1 ≤ countNl (content.take startPos) + 1
    omega
  · show countNl (content.take startPos) + 1 ≤
        countNl (content.take (pyIdx content endI)) + 1
    have := countNl_take_mono content h
    omega

lemma startPos_le_pyIdx (content : Str) (startPos : Nat) (endI : Int)
    (hsp : startPos < content.length)
    (hend : endI = -1 ∨ (startPos : Int) < endI) :
    startPos ≤ pyIdx content endI := by
  unfold pyIdx
  rcases hend with rfl | hlt
  · rw [if_pos (by omega : (-1 : Int) < 0)]
    omega
  · rw [if_neg (by omega : ¬ endI < 0)]
    omega

lemma find_closing_brace_cases (content : Str) (s : Nat) :
    find_closing_brace content s = -1 ∨ (s : Int) < find_closing_brace content s := by
  rcases findFrom_range (content.drop s) s 1 with h | ⟨h1, _⟩
  · left; exact h
  · right; exact h1

lemma pyFindFrom_ge {content : Str} {c : Char} {s ob : Nat}
    (h : pyFindFrom content c s = some ob) : s ≤ ob := by
  unfold pyFindFrom at h
  cases hf : (content.drop s).findIdx? (fun d => d = c) with
  | none => rw [hf] at h; cases h
  | some k => rw [hf] at h; cases h; omega

lemma spanRecord_from_match_wf (content name sig : Str) (m : RMatch)
    (h1 : m.mstart < content.length) (h2 : m.mstart ≤ m.mend) :
    recordWF (mkSpanRecord content name sig m.mstart
      (find_closing_brace content m.mend)) := by
  apply mkSpanRecord_wf
  apply startPos_le_pyIdx content m.mstart _ h1
  rcases find_closing_brace_cases content m.mend with h | h
  · left; exact h
  · right
    have hc : (m.mstart : Int) ≤ (m.mend : Int) := by exact_mod_cast h2
    omega

lemma pySliceTo_length_le (content : Str) (a : Nat) (e : Int) :
    (pySliceTo content a e).length ≤ content.length - a := by
  unfold pySliceTo pySliceNat
  rw [List.length_drop, List.length_take]
  omega

lemma le_pyIdx_natCast (content : Str) {a b : Nat} (h : a ≤ b) :
    a ≤ pyIdx content ((b : Nat) : Int) := by
  unfold pyIdx
  rw [if_neg (by omega : ¬ ((b : Nat) : Int) < 0)]
  omega

lemma jsPatternRecords_wf (content : Str) (mt : Matcher) :
    ∀ r ∈ jsPatternRecords content mt, recordWF r := by
  intro r hr
  rcases List.mem_map.mp hr with ⟨m, hm, hr2⟩
  have hb := pyFinditer_bounds mt content m hm
  rw [← hr2]
  exact spanRecord_from_match_wf content _ _ m hb.1 hb.2.1

lemma jsClassRecords_wf (content : Str) (m : RMatch) (hme : m.mend ≤ content.length) :
    ∀ r ∈ jsClassRecords content m, recordWF r := by
  intro r hr
  unfold jsClassRecords at hr
  rcases List.mem_map.mp hr with ⟨mm, hmm, hr2⟩
  have hb := pyFinditer_bounds matchJsMethod
    (pySliceTo content m.mend (find_closing_brace content m.mend)) mm hmm
  have hlen := pySliceTo_length_le content m.mend (find_closing_brace content m.mend)
  have hsp : m.mend + mm.mstart < content.length := by omega
  rw [← hr2]
  apply mkSpanRecord_wf
  apply startPos_le_pyIdx content _ _ hsp
  rcases find_closing_brace_cases content
      (m.mend + mm.mstart + (mm.mend - mm.mstart)) with h | h
  · left; exact h
  · right
    have hc : ((m.mend + mm.mstart : Nat) : Int) ≤
        ((m.mend + mm.mstart + (mm.mend - mm.mstart) : Nat) : Int) := by
      push_cast
      omega
    omega

lemma extract_js_ts_wf (content : Str) :
    ∀ r ∈ extract_js_ts_functions content, recordWF r := by
  intro r hr
  unfold extract_js_ts_functions at hr
  rcases List.mem_append.mp hr with hr | hr
  · rcases List.mem_append.mp hr with hr | hr
    · rcases List.mem_append.mp hr with hr | hr
      · exact jsPatternRecords_wf content matchJsFunctionDecl r hr
      · exact jsPatternRecords_wf content matchJsArrow r hr
    · exact jsPatternRecords_wf content matchJsMethod r hr
  · rcases List.mem_flatten.mp hr with ⟨lrec, hlrec, hrin⟩
    rcases List.mem_map.mp hlrec with ⟨m, hm, rfl⟩
    exact jsClassRecords_wf content m
      (pyFinditer_bounds matchJsClass content m hm).2.2 r hrin

lemma extract_ruby_wf (content : Str) :
    ∀ r ∈ extract_ruby_functions content, recordWF r := by
  intro r hr
  unfold extract_ruby_functions at hr
  rcases List.mem_map.mp hr with ⟨m, hm, hr2⟩
  have hb := pyFinditer_bounds matchRubyDef content m hm
  rw [← hr2]
  dsimp only
  cases hh : (pyFinditer matchRubyEnd (content.drop m.mend)).head? with
  | some em =>
    exact mkSpanRecord_wf _ _ _ _ _
      (le_pyIdx_natCast content (by omega : m.mstart ≤ m.mend + em.mend))
  | none =>
    exact mkSpanRecord_wf _ _ _ _ _
      (le_pyIdx_natCast content (by omega : m.mstart ≤ content.length))

lemma extract_rust_wf (content : Str) :
    ∀ r ∈ extract_rust_functions content, recordWF r := by
  intro r hr
  unfold extract_rust_functions at hr
  rcases List.mem_filterMap.mp hr with ⟨m, hm, hf⟩
  have hb := pyFinditer_bounds matchRustFn content m hm
  cases hfind : pyFindFrom content '{' m.mend with
  | none =>
    rw [hfind] at hf
    cases hf
  | some ob =>
    rw [hfind] at hf
    dsimp only at hf
    by_cases he : find_closing_brace content (ob + 1) = -1
    · rw [if_pos he] at hf
      cases hf
    · rw [if_neg he] at hf
      obtain rfl := (Option.some.injEq _ _).mp hf
      have hob := pyFindFrom_ge hfind
      apply mkSpanRecord_wf
      apply startPos_le_pyIdx content _ _ hb.1
      rcases find_closing_brace_cases content (ob + 1) with h | h
      · exact absurd h he
      · right
        have hc : (m.mstart : Int) ≤ ((ob + 1 : Nat) : Int) := by
          push_cast
          omega
        omega

lemma genericRecords_wf (content : Str) (mt : Matcher) :
    ∀ r ∈ genericRecords content mt, recordWF r := by
  intro r hr
  unfold genericRecords at hr
  rcases List.mem_filterMap.mp hr with ⟨m, hm, hf⟩
  have hb := pyFinditer_bounds mt content m hm
  by_cases hc : (content.drop (m.mend - 1)).head? ≠ some '{'
  · rw [if_pos hc] at hf
    cases hfind : pyFindFrom content '{' m.mend with
    | none =>
      rw [hfind] at hf
      cases hf
    | some ob =>
      rw [hfind] at hf
      dsimp only at hf
      by_cases he : find_closing_brace content (ob + 1) = -1
      · rw [if_pos he] at hf
        cases hf
      · rw [if_neg he] at hf
        obtain rfl := (Option.some.injEq _ _).mp hf
        have hob := pyFindFrom_ge hfind
        apply mkSpanRecord_wf
        apply startPos_le_pyIdx content _ _ hb.1
        rcases find_closing_brace_cases content (ob + 1) with h | h
        · exact absurd h he
        · right
          have hcast : (m.mstart : Int) ≤ ((ob + 1 : Nat) : Int) := by
            push_cast
            omega
          omega
  · rw [if_neg hc] at hf
    dsimp only at hf
    by_cases he : find_closing_brace content m.mend = -1
    · rw [if_pos he] at hf
      cases hf
    · rw [if_neg he] at hf
      obtain rfl := (Option.some.injEq _ _).mp hf
      exact spanRecord_from_match_wf content _ _ m hb.1 hb.2.1

lemma extract_generic_wf (content : Str) :
    ∀ r ∈ extract_generic_functions content, recordWF r := by
  intro r hr
  unfold extract_generic_functions at hr
  rcases List.mem_append.mp hr with hr | hr
  · rcases List.mem_append.mp hr with hr | hr
    · exact genericRecords_wf content matchGen1 r hr
    · exact genericRecords_wf content matchGen2 r hr
  · exact genericRecords_wf content matchGen3 r hr

lemma extract_java_wf (content : Str) :
    ∀ r ∈ extract_java_functions content, recordWF r := by
  intro r hr
  unfold extract_java_functions at hr
  rcases List.mem_map.mp hr with ⟨m, hm, hr2⟩
  have hb := pyFinditer_bounds matchJavaMethod content m hm
  rw [← hr2]
  exact spanRecord_from_match_wf content _ _ m hb.1 hb.2.1

lemma extract_go_wf (content : Str) :
    ∀ r ∈ extract_go_functions content, recordWF r := by
  intro r hr
  rcases List.mem_map.mp hr with ⟨m, hm, hr2⟩
  have hb := pyFinditer_bounds matchGoFunc content m hm
  rw [← hr2]
  exact spanRecord_from_match_wf content _ _ m hb.1 hb.2.1

lemma extract_c_cpp_wf (content : Str) :
    ∀ r ∈ extract_c_cpp_functions content, recordWF r := by
  intro r hr
  rcases List.mem_map.mp hr with ⟨m, hm, hr2⟩
  have hb := pyFinditer_bounds matchCCpp content m hm
  rw [← hr2]
  exact mkSpanRecord_wf _ _ _ _ _ (le_pyIdx_natCast content hb.2.1)

/-- Line-number sanity of one abstract-syntax-tree node: every function
definition carries `1 <= lineno <= end_lineno` (CPython guarantees this for
every tree `ast.parse` returns). -/
def fnLinesOk : PyNode → Prop
  | .functionDef _ _ _ _ l e _ => 1 ≤ l ∧ l ≤ e
  | _ => True

lemma pyFnRecord_wf (content : Str) (qual : Option Str) (name : Str)
    (args : List Str) (kw doc : Option Str) {l e : Nat} (h1 : 1 ≤ l) (h2 : l ≤ e) :
    recordWF (pyFnRecord content qual name args kw doc l e) := ⟨h1, h2⟩

lemma pyExtractFromTree_wf (content : Str) (tree : PyNode)
    (hwf : ∀ n ∈ pyWalk [tree], fnLinesOk n ∧ ∀ c ∈ nodeChildren n, fnLinesOk c) :
    ∀ r ∈ pyExtractFromTree content tree, recordWF r := by
  intro r hr
  unfold pyExtractFromTree at hr
  rcases List.mem_flatten.mp hr with ⟨lrec, hl, hrin⟩
  rcases List.mem_map.mp hl with ⟨n, hn, rfl⟩
  have hn2 := hwf n hn
  cases n with
  | functionDef name args kw doc l e body =>
    rw [List.mem_singleton.mp hrin]
    exact pyFnRecord_wf content none name args kw doc hn2.1.1 hn2.1.2
  | classDef cname cl ce body =>
    rcases List.mem_filterMap.mp hrin with ⟨child, hchild, hcf⟩
    cases child with
    | functionDef name2 args2 kw2 doc2 l2 e2 body2 =>
      obtain rfl := (Option.some.injEq _ _).mp hcf
      have hcok := hn2.2 (.functionDef name2 args2 kw2 doc2 l2 e2 body2) hchild
      exact pyFnRecord_wf content (some cname) name2 args2 kw2 doc2 hcok.1 hcok.2
    | classDef a b c d => cases hcf
    | other ch => cases hcf
  | other ch => cases hrin

lemma extract_python_wf (content : Str) (parsed : Option PyNode)
    (hwf : ∀ tree, parsed = some tree →
      ∀ n ∈ pyWalk [tree], fnLinesOk n ∧ ∀ c ∈ nodeChildren n, fnLinesOk c) :
    ∀ r ∈ extract_python_functions content parsed, recordWF r := by
  cases parsed with
  | none => exact extract_generic_wf content
  | some tree => exact pyExtractFromTree_wf content tree (hwf tree rfl)

/-- C2: every function record produced by `extract_functions`, for any input
content and any language label (and, for the Python route, any parse outcome
whose tree satisfies the line-number sanity CPython guarantees), has
`1 <= start_line <= end_line`, both 1-based. -/
theorem extracted_record_lines_spec :
    ∀ (content language filePath : Str) (parsed : Option PyNode)
      (fns : List FunctionRecord),
      (∀ tree, parsed = some tree →
        ∀ n ∈ pyWalk [tree], fnLinesOk n ∧ ∀ c ∈ nodeChildren n, fnLinesOk c) →
      extract_functions content language filePath parsed = .ok fns →
      ∀ r ∈ fns, 1 ≤ r.start_line ∧ r.start_line ≤ r.end_line := by
  intro content language filePath parsed fns hwf hok
  unfold extract_functions at hok
  cases hnorm : normalize_language language with
  | none =>
    rw [hnorm] at hok
    cases hok
  | some nl =>
    rw [hnorm] at hok
    have hd : dispatch_extract content nl parsed = fns := by
      injection hok
    subst hd
    intro r hr
    unfold dispatch_extract at hr
    split_ifs at hr with h1 h2 h3 h4 h5 h6 h7
    · exact extract_python_wf content parsed hwf r hr
    · exact extract_js_ts_wf content r hr
    · exact extract_c_cpp_wf content r hr
    · exact extract_java_wf content r hr
    · exact extract_ruby_wf content r hr
    · exact extract_go_wf content r hr
    · exact extract_rust_wf content r hr
    · exact extract_generic_wf content r hr

/-- Witness for C2 at a concrete JavaScript file. -/
theorem extracted_record_lines_spec_witness :
    1 ≤ (⟨(r"f").data, (r"f()").data, [], 1, 1,
        (r"function f()").data ++ ['{', '}']⟩ : FunctionRecord).start_line ∧
      (⟨(r"f").data, (r"f()").data, [], 1, 1,
        (r"function f()").data ++ ['{', '}']⟩ : FunctionRecord).start_line ≤
        (⟨(r"f").data, (r"f()").data, [], 1, 1,
          (r"function f()").data ++ ['{', '}']⟩ : FunctionRecord).end_line :=
  extracted_record_lines_spec ((r"function f()").data ++ ['{', '}'])
    ((r"JavaScript").data) ((r"f.js").data) none
    [⟨(r"f").data, (r"f()").data, [], 1, 1, (r"function f()").data ++ ['{', '}']⟩,
      ⟨(r"f").data, (r"f()").data, [], 1, 1,
        ((r"function f()").data ++ ['{', '}']).drop 9⟩]
    (fun tree h => by cases h) (by rfl) _ (List.mem_cons_self _ _)
